import Mathlib

/-!
Verification of the dnstwist permutation engine, scanner DNS stage and CSV
formatter (src/dnstwist.py), as a shallow embedding in Lean 4.

Python strings are modelled as `List Char`; Python sets of strings (resp. of
`Permutation` objects, which hash and compare by their `domain` field alone)
are modelled as insertion-ordered lists deduplicated by the string itself
(resp. by the domain), keeping the first inserted element of every equality
class, which is exactly what repeated `set.add` does.  The `idna.encode` /
`idna.decode` library calls are oracle parameters (`Str → Option Str`,
`none` modelling a raised exception).
-/

set_option maxRecDepth 10000

namespace Dnstwist

/-- Python strings are modelled as lists of characters. -/
abbrev Str := List Char

/-- Shorthand turning a Lean string literal into the `Str` model type. -/
def str (s : String) : Str := s.data

/-- Model of Python `s.split(sep)` for a one-character separator:
splitting the empty string yields one empty part, and every separator
occurrence starts a new part. -/
def splitOnChar (sep : Char) : Str → List Str
  | [] => [[]]
  | c :: cs =>
    if c = sep then [] :: splitOnChar sep cs
    else
      match splitOnChar sep cs with
      | [] => [[c]]
      | h :: t => (c :: h) :: t

/-- Model of Python `str.replace(pat, rep)`: replace every non-overlapping
occurrence of `pat` left to right (an empty pattern replaces nothing,
which is all the source ever passes). -/
def strReplace (pat rep : Str) : Str → Str
  | [] => []
  | c :: cs =>
    if h : pat ≠ [] ∧ pat.isPrefixOf (c :: cs) then
      rep ++ strReplace pat rep ((c :: cs).drop pat.length)
    else
      c :: strReplace pat rep cs
termination_by s => s.length
decreasing_by
  · have hp : 0 < pat.length := List.length_pos.mpr h.1
    simp only [List.length_drop, List.length_cons]
    omega
  · simp

/-- Characters matched by the class `[a-z0-9-]` of `VALID_FQDN_REGEX`
under `re.IGNORECASE`. -/
def isLDH (c : Char) : Bool := c.isAlphanum || c = '-'

/-- Constraint of the repeated group `((?!-)[a-z0-9-]{1,63}(?<!-)\.)` of
`VALID_FQDN_REGEX` on every non-final label: 1..63 characters from the
class, neither starting nor ending with a hyphen. -/
def validLabelInner (l : Str) : Bool :=
  decide (1 ≤ l.length) && decide (l.length ≤ 63) && l.all isLDH &&
  !(l.head? == some '-') && !(l.getLast? == some '-')

/-- Constraint of the final group `[a-z0-9-]{2,63}$` of `VALID_FQDN_REGEX`
on the last label: 2..63 characters from the class. -/
def validLabelLast (l : Str) : Bool :=
  decide (2 ≤ l.length) && decide (l.length ≤ 63) && l.all isLDH

/-- Core of `VALID_FQDN_REGEX`: total length 4..253 (the lookahead
`(?=^.{4,253}$)`) and a dot-separated sequence of two or more labels, the
inner ones per `validLabelInner`, the last per `validLabelLast`. -/
def validCore (s : Str) : Bool :=
  decide (4 ≤ s.length) && decide (s.length ≤ 253) &&
  (let ls := splitOnChar '.' s
   decide (2 ≤ ls.length) && ls.dropLast.all validLabelInner && validLabelLast (ls.getLastD []))

/-- Model of `VALID_FQDN_REGEX.match`: Python's `$` also matches just
before a single trailing newline, so one trailing newline is tolerated
by both the lookahead and the main pattern. -/
def validFQDN (s : Str) : Bool :=
  validCore (if s.getLast? == some '\n' then s.dropLast else s)

/-- Model of Python `s.rsplit('.', 3)`: split on dots keeping at most the
last three separators. -/
def rsplit3Dots (s : Str) : List Str :=
  let parts := splitOnChar '.' s
  if parts.length ≤ 4 then parts
  else List.intercalate ['.'] (parts.take (parts.length - 3)) :: parts.drop (parts.length - 3)

/-- Compound ccTLD fallback list of `domain_tld`. -/
def ctld : List Str :=
  [str "org", str "com", str "net", str "gov", str "edu", str "co",
   str "mil", str "nom", str "ac", str "info", str "biz", str "ne"]

/-- Model of `domain_tld` (the built-in fallback taken when the optional
`tld` library is absent): returns `(subdomain, label, tld)`. -/
def domain_tld (domain : Str) : Str × Str × Str :=
  let d := rsplit3Dots domain
  if d.length < 2 then ([], d.headD [], [])
  else if d.length = 2 then ([], d.headD [], d.getLastD [])
  else if d.getD (d.length - 2) [] ∈ ctld then
    (List.intercalate ['.'] (d.take (d.length - 3)), d.getD (d.length - 3) [],
     List.intercalate ['.'] (d.drop (d.length - 2)))
  else
    (List.intercalate ['.'] (d.take (d.length - 2)), d.getD (d.length - 2) [], d.getLastD [])

/-- Model of a value stored in a `Permutation` dict: the data model only
ever stores strings, lists of strings, and ints (bools being ints). -/
inductive CellValue where
  | vStr (s : Str)
  | vList (l : List Str)
  | vInt (n : Int)
deriving DecidableEq, Repr

/-- Model of the `Permutation` dict: the two required fields `fuzzer` and
`domain`, plus the optional scanner annotations as an association list in
insertion order.  Python `Permutation.__eq__`/`__hash__` compare by
`domain` alone; the list models that by being deduplicated by domain. -/
structure Perm where
  fuzzer : Str
  domain : Str
  extra : List (Str × CellValue) := []
deriving DecidableEq, Repr

/-- Model of `Permutation.is_registered` (`len(self) > 2`). -/
def isRegistered (p : Perm) : Bool := p.extra ≠ []

/-- Model of one `set.add`: when an element of the same key-equality
class is already present, the set keeps the existing element. -/
def insertBy {α κ : Type} [DecidableEq κ] (k : α → κ) (acc : List α) (x : α) : List α :=
  if acc.any (fun y => k y = k x) then acc else acc ++ [x]

/-- Keep the first element of every key-equality class, in insertion
order: the model of building a Python set by repeated `set.add`. -/
def dedupeBy {α κ : Type} [DecidableEq κ] (k : α → κ) (l : List α) : List α :=
  l.foldl (insertBy k) []

/-- Model of `'.'.join(filter(None, parts))` used throughout `generate`. -/
def joinNonEmpty (parts : List Str) : Str :=
  List.intercalate ['.'] (parts.filter (fun p => p ≠ []))

/-- Data of `Fuzzer.glyphs_idn_by_tld` (per-TLD homoglyph tables). -/
def glyphs_idn_by_tld : List (Str × List (Str × List Str)) :=
[
  (str "ad",
  []),
  (str "cz",
  []),
  (str "sk",
  []),
  (str "uk",
  []),
  (str "co.uk",
  []),
  (str "nl",
  []),
  (str "edu",
  []),
  (str "us",
  []),
  (str "jp",
  []),
  (str "co.jp",
  []),
  (str "ad.jp",
  []),
  (str "ne.jp",
  []),
  (str "cn",
  []),
  (str "com.cn",
  []),
  (str "tw",
  []),
  (str "com.tw",
  []),
  (str "net.tw",
  []),
  (str "info",
  [(str "a", [str "á", str "ä", str "å", str "ą"]),
   (str "c", [str "ć", str "č"]),
   (str "e", [str "é", str "ė", str "ę"]),
   (str "i", [str "í", str "į"]),
   (str "l", [str "ł"]),
   (str "n", [str "ñ", str "ń"]),
   (str "o", [str "ó", str "ö", str "ø", str "ő"]),
   (str "s", [str "ś", str "š"]),
   (str "u", [str "ú", str "ü", str "ū", str "ű", str "ų"]),
   (str "z", [str "ź", str "ż", str "ž"]),
   (str "ae", [str "æ"])]),
  (str "br",
  [(str "a", [str "à", str "á", str "â", str "ã"]),
   (str "c", [str "ç"]),
   (str "e", [str "é", str "ê"]),
   (str "i", [str "í"]),
   (str "o", [str "ó", str "ô", str "õ"]),
   (str "u", [str "ú", str "ü"]),
   (str "y", [str "ý", str "ÿ"])]),
  (str "com.br",
  [(str "a", [str "à", str "á", str "â", str "ã"]),
   (str "c", [str "ç"]),
   (str "e", [str "é", str "ê"]),
   (str "i", [str "í"]),
   (str "o", [str "ó", str "ô", str "õ"]),
   (str "u", [str "ú", str "ü"]),
   (str "y", [str "ý", str "ÿ"])]),
  (str "dk",
  [(str "a", [str "ä", str "å"]),
   (str "e", [str "é"]),
   (str "o", [str "ö", str "ø"]),
   (str "u", [str "ü"]),
   (str "ae", [str "æ"])]),
  (str "eu",
  [(str "a", [str "á", str "à", str "ă", str "â", str "å", str "ä", str "ã", str "ą", str "ā"]),
   (str "c", [str "ć", str "ĉ", str "č", str "ċ", str "ç"]),
   (str "d", [str "ď", str "đ"]),
   (str "e", [str "é", str "è", str "ĕ", str "ê", str "ě", str "ë", str "ė", str "ę", str "ē"]),
   (str "g", [str "ğ", str "ĝ", str "ġ", str "ģ"]),
   (str "h", [str "ĥ", str "ħ"]),
   (str "i", [str "í", str "ì", str "ĭ", str "î", str "ï", str "ĩ", str "į", str "ī"]),
   (str "j", [str "ĵ"]),
   (str "k", [str "ķ", str "ĸ"]),
   (str "l", [str "ĺ", str "ľ", str "ļ", str "ł"]),
   (str "n", [str "ń", str "ň", str "ñ", str "ņ"]),
   (str "o", [str "ó", str "ò", str "ŏ", str "ô", str "ö", str "ő", str "õ", str "ø", str "ō"]),
   (str "r", [str "ŕ", str "ř", str "ŗ"]),
   (str "s", [str "ś", str "ŝ", str "š", str "ş"]),
   (str "t", [str "ť", str "ţ", str "ŧ"]),
   (str "u", [str "ú", str "ù", str "ŭ", str "û", str "ů", str "ü", str "ű", str "ũ", str "ų", str "ū"]),
   (str "w", [str "ŵ"]),
   (str "y", [str "ý", str "ŷ", str "ÿ"]),
   (str "z", [str "ź", str "ž", str "ż"]),
   (str "ae", [str "æ"]),
   (str "oe", [str "œ"])]),
  (str "de",
  [(str "a", [str "á", str "à", str "ă", str "â", str "å", str "ä", str "ã", str "ą", str "ā"]),
   (str "c", [str "ć", str "ĉ", str "č", str "ċ", str "ç"]),
   (str "d", [str "ď", str "đ"]),
   (str "e", [str "é", str "è", str "ĕ", str "ê", str "ě", str "ë", str "ė", str "ę", str "ē"]),
   (str "g", [str "ğ", str "ĝ", str "ġ", str "ģ"]),
   (str "h", [str "ĥ", str "ħ"]),
   (str "i", [str "í", str "ì", str "ĭ", str "î", str "ï", str "ĩ", str "į", str "ī"]),
   (str "j", [str "ĵ"]),
   (str "k", [str "ķ", str "ĸ"]),
   (str "l", [str "ĺ", str "ľ", str "ļ", str "ł"]),
   (str "n", [str "ń", str "ň", str "ñ", str "ņ"]),
   (str "o", [str "ó", str "ò", str "ŏ", str "ô", str "ö", str "ő", str "õ", str "ø", str "ō"]),
   (str "r", [str "ŕ", str "ř", str "ŗ"]),
   (str "s", [str "ś", str "ŝ", str "š", str "ş"]),
   (str "t", [str "ť", str "ţ", str "ŧ"]),
   (str "u", [str "ú", str "ù", str "ŭ", str "û", str "ů", str "ü", str "ű", str "ũ", str "ų", str "ū"]),
   (str "w", [str "ŵ"]),
   (str "y", [str "ý", str "ŷ", str "ÿ"]),
   (str "z", [str "ź", str "ž", str "ż"]),
   (str "ae", [str "æ"]),
   (str "oe", [str "œ"])]),
  (str "pl",
  [(str "a", [str "á", str "à", str "ă", str "â", str "å", str "ä", str "ã", str "ą", str "ā"]),
   (str "c", [str "ć", str "ĉ", str "č", str "ċ", str "ç"]),
   (str "d", [str "ď", str "đ"]),
   (str "e", [str "é", str "è", str "ĕ", str "ê", str "ě", str "ë", str "ė", str "ę", str "ē"]),
   (str "g", [str "ğ", str "ĝ", str "ġ", str "ģ"]),
   (str "h", [str "ĥ", str "ħ"]),
   (str "i", [str "í", str "ì", str "ĭ", str "î", str "ï", str "ĩ", str "į", str "ī"]),
   (str "j", [str "ĵ"]),
   (str "k", [str "ķ", str "ĸ"]),
   (str "l", [str "ĺ", str "ľ", str "ļ", str "ł"]),
   (str "n", [str "ń", str "ň", str "ñ", str "ņ"]),
   (str "o", [str "ó", str "ò", str "ŏ", str "ô", str "ö", str "ő", str "õ", str "ø", str "ō"]),
   (str "r", [str "ŕ", str "ř", str "ŗ"]),
   (str "s", [str "ś", str "ŝ", str "š", str "ş"]),
   (str "t", [str "ť", str "ţ", str "ŧ"]),
   (str "u", [str "ú", str "ù", str "ŭ", str "û", str "ů", str "ü", str "ű", str "ũ", str "ų", str "ū"]),
   (str "w", [str "ŵ"]),
   (str "y", [str "ý", str "ŷ", str "ÿ"]),
   (str "z", [str "ź", str "ž", str "ż"]),
   (str "ae", [str "æ"]),
   (str "oe", [str "œ"])]),
  (str "fi",
  [(str "3", [str "ʒ"]),
   (str "a", [str "á", str "ä", str "å", str "â"]),
   (str "c", [str "č"]),
   (str "d", [str "đ"]),
   (str "g", [str "ǧ", str "ǥ"]),
   (str "k", [str "ǩ"]),
   (str "n", [str "ŋ"]),
   (str "o", [str "õ", str "ö"]),
   (str "s", [str "š"]),
   (str "t", [str "ŧ"]),
   (str "z", [str "ž"])]),
  (str "no",
  [(str "a", [str "á", str "à", str "ä", str "å"]),
   (str "c", [str "č", str "ç"]),
   (str "e", [str "é", str "è", str "ê"]),
   (str "i", [str "ï"]),
   (str "n", [str "ŋ", str "ń", str "ñ"]),
   (str "o", [str "ó", str "ò", str "ô", str "ö", str "ø"]),
   (str "s", [str "š"]),
   (str "t", [str "ŧ"]),
   (str "u", [str "ü"]),
   (str "z", [str "ž"]),
   (str "ae", [str "æ"])]),
  (str "be",
  [(str "a", [str "à", str "á", str "â", str "ã", str "ä", str "å"]),
   (str "c", [str "ç"]),
   (str "e", [str "è", str "é", str "ê", str "ë"]),
   (str "i", [str "ì", str "í", str "î", str "ï"]),
   (str "n", [str "ñ"]),
   (str "o", [str "ò", str "ó", str "ô", str "õ", str "ö"]),
   (str "u", [str "ù", str "ú", str "û", str "ü"]),
   (str "y", [str "ý", str "ÿ"]),
   (str "ae", [str "æ"]),
   (str "oe", [str "œ"])]),
  (str "fr",
  [(str "a", [str "à", str "á", str "â", str "ã", str "ä", str "å"]),
   (str "c", [str "ç"]),
   (str "e", [str "è", str "é", str "ê", str "ë"]),
   (str "i", [str "ì", str "í", str "î", str "ï"]),
   (str "n", [str "ñ"]),
   (str "o", [str "ò", str "ó", str "ô", str "õ", str "ö"]),
   (str "u", [str "ù", str "ú", str "û", str "ü"]),
   (str "y", [str "ý", str "ÿ"]),
   (str "ae", [str "æ"]),
   (str "oe", [str "œ"])]),
  (str "re",
  [(str "a", [str "à", str "á", str "â", str "ã", str "ä", str "å"]),
   (str "c", [str "ç"]),
   (str "e", [str "è", str "é", str "ê", str "ë"]),
   (str "i", [str "ì", str "í", str "î", str "ï"]),
   (str "n", [str "ñ"]),
   (str "o", [str "ò", str "ó", str "ô", str "õ", str "ö"]),
   (str "u", [str "ù", str "ú", str "û", str "ü"]),
   (str "y", [str "ý", str "ÿ"]),
   (str "ae", [str "æ"]),
   (str "oe", [str "œ"])]),
  (str "yt",
  [(str "a", [str "à", str "á", str "â", str "ã", str "ä", str "å"]),
   (str "c", [str "ç"]),
   (str "e", [str "è", str "é", str "ê", str "ë"]),
   (str "i", [str "ì", str "í", str "î", str "ï"]),
   (str "n", [str "ñ"]),
   (str "o", [str "ò", str "ó", str "ô", str "õ", str "ö"]),
   (str "u", [str "ù", str "ú", str "û", str "ü"]),
   (str "y", [str "ý", str "ÿ"]),
   (str "ae", [str "æ"]),
   (str "oe", [str "œ"])]),
  (str "pm",
  [(str "a", [str "à", str "á", str "â", str "ã", str "ä", str "å"]),
   (str "c", [str "ç"]),
   (str "e", [str "è", str "é", str "ê", str "ë"]),
   (str "i", [str "ì", str "í", str "î", str "ï"]),
   (str "n", [str "ñ"]),
   (str "o", [str "ò", str "ó", str "ô", str "õ", str "ö"]),
   (str "u", [str "ù", str "ú", str "û", str "ü"]),
   (str "y", [str "ý", str "ÿ"]),
   (str "ae", [str "æ"]),
   (str "oe", [str "œ"])]),
  (str "wf",
  [(str "a", [str "à", str "á", str "â", str "ã", str "ä", str "å"]),
   (str "c", [str "ç"]),
   (str "e", [str "è", str "é", str "ê", str "ë"]),
   (str "i", [str "ì", str "í", str "î", str "ï"]),
   (str "n", [str "ñ"]),
   (str "o", [str "ò", str "ó", str "ô", str "õ", str "ö"]),
   (str "u", [str "ù", str "ú", str "û", str "ü"]),
   (str "y", [str "ý", str "ÿ"]),
   (str "ae", [str "æ"]),
   (str "oe", [str "œ"])]),
  (str "tf",
  [(str "a", [str "à", str "á", str "â", str "ã", str "ä", str "å"]),
   (str "c", [str "ç"]),
   (str "e", [str "è", str "é", str "ê", str "ë"]),
   (str "i", [str "ì", str "í", str "î", str "ï"]),
   (str "n", [str "ñ"]),
   (str "o", [str "ò", str "ó", str "ô", str "õ", str "ö"]),
   (str "u", [str "ù", str "ú", str "û", str "ü"]),
   (str "y", [str "ý", str "ÿ"]),
   (str "ae", [str "æ"]),
   (str "oe", [str "œ"])]),
  (str "ch",
  [(str "a", [str "à", str "á", str "â", str "ã", str "ä", str "å"]),
   (str "c", [str "ç"]),
   (str "e", [str "è", str "é", str "ê", str "ë"]),
   (str "i", [str "ì", str "í", str "î", str "ï"]),
   (str "n", [str "ñ"]),
   (str "o", [str "ò", str "ó", str "ô", str "õ", str "ö"]),
   (str "u", [str "ù", str "ú", str "û", str "ü"]),
   (str "y", [str "ý", str "ÿ"]),
   (str "ae", [str "æ"]),
   (str "oe", [str "œ"])]),
  (str "li",
  [(str "a", [str "à", str "á", str "â", str "ã", str "ä", str "å"]),
   (str "c", [str "ç"]),
   (str "e", [str "è", str "é", str "ê", str "ë"]),
   (str "i", [str "ì", str "í", str "î", str "ï"]),
   (str "n", [str "ñ"]),
   (str "o", [str "ò", str "ó", str "ô", str "õ", str "ö"]),
   (str "u", [str "ù", str "ú", str "û", str "ü"]),
   (str "y", [str "ý", str "ÿ"]),
   (str "ae", [str "æ"]),
   (str "oe", [str "œ"])]),
  (str "ca",
  [(str "a", [str "à", str "â"]),
   (str "c", [str "ç"]),
   (str "e", [str "è", str "é", str "ê", str "ë"]),
   (str "i", [str "î", str "ï"]),
   (str "o", [str "ô"]),
   (str "u", [str "ù", str "û", str "ü"]),
   (str "y", [str "ÿ"]),
   (str "ae", [str "æ"]),
   (str "oe", [str "œ"])])
]

/-- Data of `Fuzzer.glyphs_unicode`. -/
def glyphs_unicode : List (Str × List Str) :=
  [(str "2", [str "ƻ"]),
   (str "3", [str "ʒ"]),
   (str "5", [str "ƽ"]),
   (str "a", [str "ạ", str "ă", str "ȧ", str "ɑ", str "å", str "ą", str "â", str "ǎ", str "á", str "ə", str "ä", str "ã", str "ā", str "à"]),
   (str "b", [str "ḃ", str "ḅ", str "ƅ", str "ʙ", str "ḇ", str "ɓ"]),
   (str "c", [str "č", str "ᴄ", str "ċ", str "ç", str "ć", str "ĉ", str "ƈ"]),
   (str "d", [str "ď", str "ḍ", str "ḋ", str "ɖ", str "ḏ", str "ɗ", str "ḓ", str "ḑ", str "đ"]),
   (str "e", [str "ê", str "ẹ", str "ę", str "è", str "ḛ", str "ě", str "ɇ", str "ė", str "ĕ", str "é", str "ë", str "ē", str "ȩ"]),
   (str "f", [str "ḟ", str "ƒ"]),
   (str "g", [str "ǧ", str "ġ", str "ǵ", str "ğ", str "ɡ", str "ǥ", str "ĝ", str "ģ", str "ɢ"]),
   (str "h", [str "ȟ", str "ḫ", str "ḩ", str "ḣ", str "ɦ", str "ḥ", str "ḧ", str "ħ", str "ẖ", str "ⱨ", str "ĥ"]),
   (str "i", [str "ɩ", str "ǐ", str "í", str "ɪ", str "ỉ", str "ȋ", str "ɨ", str "ï", str "ī", str "ĩ", str "ị", str "î", str "ı", str "ĭ", str "į", str "ì"]),
   (str "j", [str "ǰ", str "ĵ", str "ʝ", str "ɉ"]),
   (str "k", [str "ĸ", str "ǩ", str "ⱪ", str "ḵ", str "ķ", str "ᴋ", str "ḳ"]),
   (str "l", [str "ĺ", str "ł", str "ɫ", str "ļ", str "ľ"]),
   (str "m", [str "ᴍ", str "ṁ", str "ḿ", str "ṃ", str "ɱ"]),
   (str "n", [str "ņ", str "ǹ", str "ń", str "ň", str "ṅ", str "ṉ", str "ṇ", str "ꞑ", str "ñ", str "ŋ"]),
   (str "o", [str "ö", str "ó", str "ȯ", str "ỏ", str "ô", str "ᴏ", str "ō", str "ò", str "ŏ", str "ơ", str "ő", str "õ", str "ọ", str "ø"]),
   (str "p", [str "ṗ", str "ƿ", str "ƥ", str "ṕ"]),
   (str "q", [str "ʠ"]),
   (str "r", [str "ʀ", str "ȓ", str "ɍ", str "ɾ", str "ř", str "ṛ", str "ɽ", str "ȑ", str "ṙ", str "ŗ", str "ŕ", str "ɼ", str "ṟ"]),
   (str "s", [str "ṡ", str "ș", str "ŝ", str "ꜱ", str "ʂ", str "š", str "ś", str "ṣ", str "ş"]),
   (str "t", [str "ť", str "ƫ", str "ţ", str "ṭ", str "ṫ", str "ț", str "ŧ"]),
   (str "u", [str "ᴜ", str "ų", str "ŭ", str "ū", str "ű", str "ǔ", str "ȕ", str "ư", str "ù", str "ů", str "ʉ", str "ú", str "ȗ", str "ü", str "û", str "ũ", str "ụ"]),
   (str "v", [str "ᶌ", str "ṿ", str "ᴠ", str "ⱴ", str "ⱱ", str "ṽ"]),
   (str "w", [str "ᴡ", str "ẇ", str "ẅ", str "ẃ", str "ẘ", str "ẉ", str "ⱳ", str "ŵ", str "ẁ"]),
   (str "x", [str "ẋ", str "ẍ"]),
   (str "y", [str "ŷ", str "ÿ", str "ʏ", str "ẏ", str "ɏ", str "ƴ", str "ȳ", str "ý", str "ỿ", str "ỵ"]),
   (str "z", [str "ž", str "ƶ", str "ẓ", str "ẕ", str "ⱬ", str "ᴢ", str "ż", str "ź", str "ʐ"]),
   (str "ae", [str "æ"]),
   (str "oe", [str "œ"])]

/-- Data of `Fuzzer.glyphs_ascii`. -/
def glyphs_ascii : List (Str × List Str) :=
  [(str "0", [str "o"]),
   (str "1", [str "l", str "i"]),
   (str "3", [str "8"]),
   (str "6", [str "9"]),
   (str "8", [str "3"]),
   (str "9", [str "6"]),
   (str "b", [str "d", str "lb"]),
   (str "c", [str "e"]),
   (str "d", [str "b", str "cl", str "dl"]),
   (str "e", [str "c"]),
   (str "g", [str "q"]),
   (str "h", [str "lh"]),
   (str "i", [str "1", str "l"]),
   (str "k", [str "lc"]),
   (str "l", [str "1", str "i"]),
   (str "m", [str "n", str "nn", str "rn"]),
   (str "n", [str "m", str "r"]),
   (str "o", [str "0"]),
   (str "q", [str "g"]),
   (str "u", [str "v"]),
   (str "v", [str "u"]),
   (str "w", [str "vv"]),
   (str "rn", [str "m"]),
   (str "cl", [str "d"])]

/-- Data of `Fuzzer.latin_to_cyrillic`. -/
def latin_to_cyrillic : List (Char × Char) :=
  [('a', 'а'), ('b', 'ь'), ('c', 'с'), ('d', 'ԁ'), ('e', 'е'), ('g', 'ԍ'), ('h', 'һ'), ('i', 'і'), ('j', 'ј'), ('k', 'к'), ('l', 'ӏ'), ('m', 'м'), ('o', 'о'), ('p', 'р'), ('q', 'ԛ'), ('s', 'ѕ'), ('t', 'т'), ('v', 'ѵ'), ('w', 'ԝ'), ('x', 'х'), ('y', 'у')]

/-- Data of the `Fuzzer.qwerty` keyboard-adjacency table. -/
def qwerty : List (Char × Str) :=
  [('1', str "2q"),
   ('2', str "3wq1"),
   ('3', str "4ew2"),
   ('4', str "5re3"),
   ('5', str "6tr4"),
   ('6', str "7yt5"),
   ('7', str "8uy6"),
   ('8', str "9iu7"),
   ('9', str "0oi8"),
   ('0', str "po9"),
   ('q', str "12wa"),
   ('w', str "3esaq2"),
   ('e', str "4rdsw3"),
   ('r', str "5tfde4"),
   ('t', str "6ygfr5"),
   ('y', str "7uhgt6"),
   ('u', str "8ijhy7"),
   ('i', str "9okju8"),
   ('o', str "0plki9"),
   ('p', str "lo0"),
   ('a', str "qwsz"),
   ('s', str "edxzaw"),
   ('d', str "rfcxse"),
   ('f', str "tgvcdr"),
   ('g', str "yhbvft"),
   ('h', str "ujnbgy"),
   ('j', str "ikmnhu"),
   ('k', str "olmji"),
   ('l', str "kop"),
   ('z', str "asx"),
   ('x', str "zsdc"),
   ('c', str "xdfv"),
   ('v', str "cfgb"),
   ('b', str "vghn"),
   ('n', str "bhjm"),
   ('m', str "njk")]

/-- Data of the `Fuzzer.qwertz` keyboard-adjacency table. -/
def qwertz : List (Char × Str) :=
  [('1', str "2q"),
   ('2', str "3wq1"),
   ('3', str "4ew2"),
   ('4', str "5re3"),
   ('5', str "6tr4"),
   ('6', str "7zt5"),
   ('7', str "8uz6"),
   ('8', str "9iu7"),
   ('9', str "0oi8"),
   ('0', str "po9"),
   ('q', str "12wa"),
   ('w', str "3esaq2"),
   ('e', str "4rdsw3"),
   ('r', str "5tfde4"),
   ('t', str "6zgfr5"),
   ('z', str "7uhgt6"),
   ('u', str "8ijhz7"),
   ('i', str "9okju8"),
   ('o', str "0plki9"),
   ('p', str "lo0"),
   ('a', str "qwsy"),
   ('s', str "edxyaw"),
   ('d', str "rfcxse"),
   ('f', str "tgvcdr"),
   ('g', str "zhbvft"),
   ('h', str "ujnbgz"),
   ('j', str "ikmnhu"),
   ('k', str "olmji"),
   ('l', str "kop"),
   ('y', str "asx"),
   ('x', str "ysdc"),
   ('c', str "xdfv"),
   ('v', str "cfgb"),
   ('b', str "vghn"),
   ('n', str "bhjm"),
   ('m', str "njk")]

/-- Data of the `Fuzzer.azerty` keyboard-adjacency table. -/
def azerty : List (Char × Str) :=
  [('1', str "2a"),
   ('2', str "3za1"),
   ('3', str "4ez2"),
   ('4', str "5re3"),
   ('5', str "6tr4"),
   ('6', str "7yt5"),
   ('7', str "8uy6"),
   ('8', str "9iu7"),
   ('9', str "0oi8"),
   ('0', str "po9"),
   ('a', str "2zq1"),
   ('z', str "3esqa2"),
   ('e', str "4rdsz3"),
   ('r', str "5tfde4"),
   ('t', str "6ygfr5"),
   ('y', str "7uhgt6"),
   ('u', str "8ijhy7"),
   ('i', str "9okju8"),
   ('o', str "0plki9"),
   ('p', str "lo0m"),
   ('q', str "zswa"),
   ('s', str "edxwqz"),
   ('d', str "rfcxse"),
   ('f', str "tgvcdr"),
   ('g', str "yhbvft"),
   ('h', str "ujnbgy"),
   ('j', str "iknhu"),
   ('k', str "olji"),
   ('l', str "kopm"),
   ('m', str "lp"),
   ('w', str "sxq"),
   ('x', str "wsdc"),
   ('c', str "xdfv"),
   ('v', str "cfgb"),
   ('b', str "vghn"),
   ('n', str "bhj")]


/-- List of the three keyboard layouts (`Fuzzer.keyboards`). -/
def keyboards : List (List (Char × Str)) := [qwerty, qwertz, azerty]

/-- Model of `Fuzzer._bitsquatting`: flip one bit of each character's
code point; keep the result when the new character is in `[a-z0-9-]`. -/
def bitsquatting (d : Str) : List Str :=
  let masks : List Nat := [1, 2, 4, 8, 16, 32, 64, 128]
  let chars := str "abcdefghijklmnopqrstuvwxyz0123456789-"
  d.enum.flatMap (fun ic =>
    masks.filterMap (fun mask =>
      let b := Char.ofNat (ic.2.toNat ^^^ mask)
      if b ∈ chars then some (d.take ic.1 ++ b :: d.drop (ic.1 + 1)) else none))

/-- Model of `Fuzzer._cyrillic`: substitute every mapped Latin letter by
its Cyrillic analogue; emit only when every position changed. -/
def cyrillic (d : Str) : List Str :=
  let cdomain := latin_to_cyrillic.foldl
    (fun s lc => s.map (fun x => if x = lc.1 then lc.2 else x)) d
  if (cdomain.zip d).all (fun p => p.1 ≠ p.2) then [cdomain] else []

/-- Union-by-key of the ASCII glyph table and the per-TLD (default:
Unicode) glyph table — the `md` lambda of `Fuzzer._homoglyph` followed by
`glyphs.get(key, [])`. -/
def glyphsFor (tld : Str) (key : Str) : List Str :=
  let tldTbl := (glyphs_idn_by_tld.lookup tld).getD glyphs_unicode
  (((glyphs_ascii.lookup key).getD []) ++ ((tldTbl.lookup key).getD [])).dedup

/-- Model of the inner `mix` generator of `Fuzzer._homoglyph`: single
character substitutions, then substitutions inside every window of two
characters (`{win[0], win[1], win}` being a Python set is modelled by
deduplicating the three keys). -/
def homoglyphMix (tld : Str) (d : Str) : List Str :=
  (d.enum.flatMap (fun ic =>
    (glyphsFor tld [ic.2]).map (fun g => d.take ic.1 ++ g ++ d.drop (ic.1 + 1))))
  ++ ((List.range (d.length - 1)).flatMap (fun i =>
    let win := (d.drop i).take 2
    ([[d.getD i ' '], [d.getD (i + 1) ' '], win].dedup).flatMap (fun c =>
      (glyphsFor tld c).map (fun g => d.take i ++ strReplace c g win ++ d.drop (i + 2)))))

/-- Model of `Fuzzer._homoglyph`: two passes of `mix`, unioned. -/
def homoglyph (tld : Str) (d : Str) : List Str :=
  let result1 := (homoglyphMix tld d).dedup
  let result2 := (result1.flatMap (homoglyphMix tld)).dedup
  (result1 ++ result2).dedup

/-- Model of `Fuzzer._hyphenation`: insert `-` at each interior position. -/
def hyphenation (d : Str) : List Str :=
  ((List.range' 1 (d.length - 1)).map (fun i => d.take i ++ '-' :: d.drop i)).dedup

/-- Model of `Fuzzer._insertion`: at positions `0..len-2`, insert each
keyboard-adjacent character before and after the original character. -/
def insertion (d : Str) : List Str :=
  ((List.range (d.length - 1)).flatMap (fun i =>
    let pre := d.take i
    let c0 := d.getD i ' '
    let suf := d.drop (i + 1)
    (keyboards.flatMap (fun kb => (kb.lookup c0).getD [])).flatMap (fun c =>
      [pre ++ c :: c0 :: suf, pre ++ c0 :: c :: suf]))).dedup

/-- Model of `Fuzzer._omission`: delete each character (the Python set
comprehension already deduplicates equal results). -/
def omission (d : Str) : List Str :=
  ((List.range d.length).map (fun i => d.take i ++ d.drop (i + 1))).dedup

/-- Model of `Fuzzer._repetition`: duplicate each character in place. -/
def repetition (d : Str) : List Str :=
  (d.enum.map (fun ic => d.take ic.1 ++ ic.2 :: d.drop ic.1)).dedup

/-- Model of `Fuzzer._replacement`: replace each character by each
keyboard-adjacent character, across the three layouts. -/
def replacement (d : Str) : List Str :=
  d.enum.flatMap (fun ic =>
    keyboards.flatMap (fun kb =>
      ((kb.lookup ic.2).getD []).map (fun r => d.take ic.1 ++ r :: d.drop (ic.1 + 1))))

/-- Model of `Fuzzer._subdomain`: insert `.` at positions `1..len-2`
where neither neighbour is `-` or `.`. -/
def subdomainFuzz (d : Str) : List Str :=
  (List.range' 1 (d.length - 2)).filterMap (fun i =>
    if d.getD i ' ' ∉ ['-', '.'] ∧ d.getD (i - 1) ' ' ∉ ['-', '.'] then
      some (d.take i ++ '.' :: d.drop i)
    else none)

/-- Model of `Fuzzer._transposition`: swap each pair of adjacent
characters (the set comprehension deduplicates). -/
def transposition (d : Str) : List Str :=
  ((List.range (d.length - 1)).map (fun i =>
    d.take i ++ d.getD (i + 1) ' ' :: d.getD i ' ' :: d.drop (i + 2))).dedup

/-- Model of `Fuzzer._vowel_swap`: at each vowel position substitute each
of `aeiou` (including the vowel already there). -/
def vowel_swap (d : Str) : List Str :=
  let vowels := str "aeiou"
  (List.range d.length).flatMap (fun i =>
    vowels.filterMap (fun vowel =>
      if d.getD i ' ' ∈ vowels then some (d.take i ++ vowel :: d.drop (i + 1)) else none))

/-- Model of `Fuzzer._plural`: at positions `2..len-3` append `s` (or
`es` after `s`, `x`, `z`). -/
def plural (d : Str) : List Str :=
  (List.range' 2 (d.length - 4)).map (fun i =>
    d.take (i + 1) ++ (if d.getD i ' ' ∈ ['s', 'x', 'z'] then str "es" else str "s") ++ d.drop (i + 1))

/-- Characters `chr(48..57)` and `chr(97..122)` used by `Fuzzer._addition`. -/
def additionChars : Str := str "0123456789abcdefghijklmnopqrstuvwxyz"

/-- Model of `Fuzzer._addition`: append one character; when the label
contains `-`, also insert a character before each hyphen segment. -/
def addition (d : Str) : List Str :=
  let base :=
    if '-' ∈ d then
      let parts := splitOnChar '-' d
      additionChars.flatMap (fun c =>
        (List.range' 1 (parts.length - 1)).map (fun p =>
          List.intercalate ['-'] (parts.take p) ++ c :: '-' :: List.intercalate ['-'] (parts.drop p)))
    else []
  (base ++ additionChars.map (fun c => d ++ [c])).dedup

/-- Model of `Fuzzer._dictionary`: label/word compositions, plus the
hyphen-splice variants when the label contains `-`. -/
def dictionaryFuzz (dict : List Str) (d : Str) : List Str :=
  let first := dict.flatMap (fun word =>
    if ¬ (word.isPrefixOf d ∧ word.isSuffixOf d) then
      [d ++ '-' :: word, d ++ word, word ++ '-' :: d, word ++ d]
    else [])
  let second :=
    if '-' ∈ d then
      let parts := splitOnChar '-' d
      dict.flatMap (fun word =>
        [List.intercalate ['-'] parts.dropLast ++ '-' :: word,
         word ++ '-' :: List.intercalate ['-'] (parts.drop 1)])
    else []
  (first ++ second).dedup

/-- Model of the mutation in `Fuzzer._tld`: `list.remove` deletes the
first occurrence of the current TLD when present. -/
def tldStep (tld : Str) (tldDict : List Str) : List Str :=
  if tld ∈ tldDict then tldDict.erase tld else tldDict

/-- FuzzerState models a `Fuzzer` instance: the `domain_tld` triple, the
two word lists given to `__init__`, and the stored permutation set. -/
structure FuzzerState where
  subdomain : Str
  domain : Str
  tld : Str
  dictionary : List Str
  tld_dictionary : List Str
  domains : List Perm := []
deriving DecidableEq, Repr

/-- Dispatch of `getattr(self, '_' + name.replace('-', '_'))` inside
`Fuzzer.generate`: the recognized fuzzer names; an unknown name raises
`AttributeError`, which the loop swallows.  The name `tld` reaches
`Fuzzer._tld` and therefore also mutates the TLD dictionary; `tld-swap`
maps to the nonexistent `_tld_swap` and is skipped here (it is handled
by the dedicated block of `generate`). -/
def fuzzerEmit (st : FuzzerState) (name : Str) : List Str :=
  if name = str "addition" then addition st.domain
  else if name = str "bitsquatting" then bitsquatting st.domain
  else if name = str "cyrillic" then cyrillic st.domain
  else if name = str "dictionary" then dictionaryFuzz st.dictionary st.domain
  else if name = str "homoglyph" then homoglyph st.tld st.domain
  else if name = str "hyphenation" then hyphenation st.domain
  else if name = str "insertion" then insertion st.domain
  else if name = str "omission" then omission st.domain
  else if name = str "plural" then plural st.domain
  else if name = str "repetition" then repetition st.domain
  else if name = str "replacement" then replacement st.domain
  else if name = str "subdomain" then subdomainFuzz st.domain
  else if name = str "transposition" then transposition st.domain
  else if name = str "vowel-swap" then vowel_swap st.domain
  else []

/-- Combined dispatch: `_tld` is the only reachable method that touches
the TLD dictionary, so it is singled out; every other recognized name
yields its emissions (`fuzzerEmit`) and leaves the dictionary alone. -/
def fuzzerStep (st : FuzzerState) (tldDict : List Str) (name : Str) : List Str × List Str :=
  if name = str "tld" then (let td := tldStep st.tld tldDict; (td.dedup, td))
  else (fuzzerEmit st name, tldDict)

/-- Default fuzzer list of `Fuzzer.generate` (used when `fuzzers` is
empty), in source order. -/
def defaultFuzzers : List Str :=
  [str "addition", str "bitsquatting", str "cyrillic", str "homoglyph", str "hyphenation",
   str "insertion", str "omission", str "plural", str "repetition", str "replacement",
   str "subdomain", str "transposition", str "vowel-swap", str "dictionary"]

/-- Main loop of `Fuzzer.generate`: run each named fuzzer in order,
joining each produced label as `subdomain.label.tld` (empty parts
elided) and threading the mutable TLD dictionary. -/
def loopRun (st : FuzzerState) : List Str → List Str → List Perm × List Str
  | [], td => ([], td)
  | name :: names, td =>
    let r := fuzzerStep st td name
    let rest := loopRun st names r.2
    (r.1.map (fun d => { fuzzer := name, domain := joinNonEmpty [st.subdomain, d, st.tld] }) ++ rest.1,
     rest.2)

/-- Model of the `various` block of `Fuzzer.generate`, in insertion
order. -/
def various (st : FuzzerState) : List Perm :=
  (if '.' ∈ st.tld then
    [{ fuzzer := str "various",
       domain := joinNonEmpty [st.subdomain, st.domain, (splitOnChar '.' st.tld).getLastD []] },
     { fuzzer := str "various", domain := joinNonEmpty [st.subdomain, st.domain ++ st.tld] }]
   else []) ++
  (if '.' ∉ st.tld then
    [{ fuzzer := str "various", domain := joinNonEmpty [st.subdomain, st.domain ++ st.tld, st.tld] }]
   else []) ++
  (if st.tld ≠ str "com" ∧ '.' ∉ st.tld then
    [{ fuzzer := str "various",
       domain := joinNonEmpty [st.subdomain, st.domain ++ '-' :: st.tld, str "com"] },
     { fuzzer := str "various", domain := joinNonEmpty [st.subdomain, st.domain ++ st.tld, str "com"] }]
   else []) ++
  (if st.subdomain ≠ [] then
    [{ fuzzer := str "various", domain := List.intercalate ['.'] [st.subdomain ++ st.domain, st.tld] },
     { fuzzer := str "various",
       domain := List.intercalate ['.'] [strReplace (str ".") (str "") st.subdomain ++ st.domain, st.tld] },
     { fuzzer := str "various", domain := List.intercalate ['.'] [st.subdomain ++ '-' :: st.domain, st.tld] },
     { fuzzer := str "various",
       domain := List.intercalate ['.'] [strReplace (str ".") (str "-") st.subdomain ++ '-' :: st.domain, st.tld] }]
   else [])

/-- Candidate permutations added by `Fuzzer.generate` before Punycode
normalization, in insertion order, together with the TLD dictionary
left behind by the `_tld` mutations. -/
def genCandidates (st : FuzzerState) (fuzzers : List Str) : List Perm × List Str :=
  let orig : List Perm :=
    if fuzzers = [] ∨ str "*original" ∈ fuzzers then
      [{ fuzzer := str "*original", domain := joinNonEmpty [st.subdomain, st.domain, st.tld] }]
    else []
  let names := if fuzzers = [] then defaultFuzzers else fuzzers
  let lr := loopRun st names st.tld_dictionary
  let tldPart : List Perm × List Str :=
    if fuzzers = [] ∨ str "tld-swap" ∈ fuzzers then
      let td := tldStep st.tld lr.2
      (td.dedup.map (fun t => { fuzzer := str "tld-swap", domain := joinNonEmpty [st.subdomain, st.domain, t] }), td)
    else ([], lr.2)
  let varPart := if fuzzers = [] ∨ str "various" ∈ fuzzers then various st else []
  (orig ++ lr.1 ++ tldPart.1 ++ varPart, tldPart.2)

/-- Model of `generate._punycode` on the domain string: `idna.encode`
failure maps the domain to the empty string. -/
def punyEnc (enc : Str → Option Str) (d : Str) : Str := (enc d).getD []

/-- Model of `generate._punycode` on a permutation. -/
def punycodePerm (enc : Str → Option Str) (p : Perm) : Perm :=
  { p with domain := punyEnc enc p.domain }

/-- The `*original` permutation inserted first by `Fuzzer.generate`. -/
def origPerm (st : FuzzerState) : Perm :=
  { fuzzer := str "*original", domain := joinNonEmpty [st.subdomain, st.domain, st.tld] }

/-- Model of `Fuzzer.generate`: reset `domains`, insert the candidates in
order into the set, apply `_punycode` to every element (rebuilding the
set), and discard the elements that fail `VALID_FQDN_REGEX`. -/
def generate (enc : Str → Option Str) (st : FuzzerState) (fuzzers : List Str) : FuzzerState :=
  let c := genCandidates st fuzzers
  let deduped := dedupeBy Perm.domain c.1
  let encoded := deduped.map (punycodePerm enc)
  let deduped2 := dedupeBy Perm.domain encoded
  { st with domains := deduped2.filter (fun p => validFQDN p.domain),
            tld_dictionary := c.2 }

/-- Model of Python string `<`: lexicographic comparison by code point. -/
def lexLt : Str → Str → Bool
  | [], [] => false
  | [], _ :: _ => true
  | _ :: _, [] => false
  | a :: as, b :: bs => if a < b then true else if b < a then false else lexLt as bs

/-- Options of `Fuzzer.permutations`. -/
structure POpts where
  registered : Bool := false
  unregistered : Bool := false
  dns_all : Bool := false
  unicode : Bool := false
deriving DecidableEq, Repr

/-- First A record used by `Permutation.__lt__`
(`self.get('dns_a', [''])[0]`). -/
def getDnsA0 (p : Perm) : Str :=
  match p.extra.lookup (str "dns_a") with
  | some (CellValue.vList (h :: _)) => h
  | _ => []

/-- Model of `Permutation.__lt__`: by fuzzer, then (for two registered
entries) by first A record + domain, else by domain. -/
def permLtB (a b : Perm) : Bool :=
  if a.fuzzer = b.fuzzer then
    if isRegistered a && isRegistered b then
      lexLt (getDnsA0 a ++ a.domain) (getDnsA0 b ++ b.domain)
    else lexLt a.domain b.domain
  else lexLt a.fuzzer b.fuzzer

/-- Truncation `x[k] = x[k][:1]` of `_cutdns` on one value (a Python
slice; on the int-valued fields the source would raise, so they are left
unchanged here — the DNS keys are always list-valued). -/
def cutVal : CellValue → CellValue
  | CellValue.vList l => CellValue.vList (l.take 1)
  | CellValue.vStr s => CellValue.vStr (s.take 1)
  | v => v

/-- DNS annotation keys truncated by `_cutdns`. -/
def dnsKeys : List Str := [str "dns_ns", str "dns_a", str "dns_aaaa", str "dns_mx"]

/-- Model of the `_cutdns` closure of `Fuzzer.permutations`. -/
def cutdns (x : Perm) : Perm :=
  if isRegistered x then
    { x with extra := x.extra.map (fun kv => if kv.1 ∈ dnsKeys then (kv.1, cutVal kv.2) else kv) }
  else x

/-- Model of `Fuzzer.permutations`: every returned entry is built from a
`x.copy()` of a stored permutation (value semantics here, matching the
fresh dict that `Permutation.copy` returns), optionally filtered by
registration, DNS-truncated unless `dns_all`, IDNA-decoded when
`unicode` (`dec` oracle), and sorted by `Permutation.__lt__` with a
stable sort, like Python's.  The second component is the permutation
store after the call: the source only reads `self.domains` and mutates
the fresh copies, so the store comes back unchanged. -/
def permutationsCall (dec : Str → Str) (st : FuzzerState) (o : POpts) : List Perm × FuzzerState :=
  let doms :=
    if o.registered && !o.unregistered then st.domains.filter (fun x => isRegistered x)
    else if o.unregistered && !o.registered then st.domains.filter (fun x => !isRegistered x)
    else st.domains
  let doms2 := if !o.dns_all then doms.map cutdns else doms
  let doms3 := if o.unicode then doms2.map (fun x => { x with domain := dec x.domain }) else doms2
  (List.insertionSort (fun a b => permLtB b a = false) doms3, st)

/-- DNS record types queried by the scanner. -/
inductive RType where
  | NS | A | AAAA | MX
deriving DecidableEq, Repr

/-- Outcome of one resolver query (the oracle's answer): success with
the raw answer strings, NXDOMAIN, NoNameservers (SERVFAIL), or any
other DNSException. -/
inductive DnsReply where
  | ok (answers : List Str)
  | nxdomain
  | servfail
  | err
deriving DecidableEq, Repr

/-- Model of Python `str.rstrip('.')`: strip all trailing dots. -/
def rstripDot (x : Str) : Str := (x.reverse.dropWhile (fun c => c = '.')).reverse

/-- Model of the `_answer_to_list` lambda in `Scanner.run`:
`sorted([str(x).split(' ')[-1].rstrip('.') for x in ans])`. -/
def answerToList (ans : List Str) : List Str :=
  List.insertionSort (fun a b => lexLt b a = false)
    (ans.map (fun x => rstripDot ((splitOnChar ' ' x).getLastD [])))

/-- Sentinel list recorded when a query raises NoNameservers. -/
def servFailSentinel : List Str := [str "!ServFail"]

/-- DNS fields recorded on the scanned permutation by the
external-resolver stage of `Scanner.run`. -/
structure DnsFields where
  dns_ns : Option (List Str) := none
  dns_a : Option (List Str) := none
  dns_aaaa : Option (List Str) := none
  dns_mx : Option (List Str) := none
deriving DecidableEq, Repr

/-- Field recorded for an A/AAAA/MX query: success records the sorted
answers, NoNameservers the sentinel, and every other DNSException —
NXDOMAIN included, since only the NS query has a dedicated
`except NXDOMAIN` — records nothing. -/
def fieldOf : DnsReply → Option (List Str)
  | DnsReply.ok xs => some (answerToList xs)
  | DnsReply.servfail => some servFailSentinel
  | _ => none

/-- The `nxdomain` flag of `Scanner.run`. -/
def isNxdomain : DnsReply → Bool
  | DnsReply.nxdomain => true
  | _ => false

/-- The `dns_ns` success flag of `Scanner.run`. -/
def isOkReply : DnsReply → Bool
  | DnsReply.ok _ => true
  | _ => false

/-- Model of the external-resolver DNS stage of `Scanner.run` with the
resolver as an oracle: returns the recorded fields and the list of
queries performed, in order.  `NS` is queried first; `A` and `AAAA` are
queried whenever `NS` did not raise NXDOMAIN; `MX` only when the `NS`
query additionally succeeded. -/
def scanDns (resolve : RType → DnsReply) : DnsFields × List RType :=
  let nsR := resolve RType.NS
  let f0 : DnsFields :=
    { dns_ns :=
        match nsR with
        | DnsReply.ok xs => some (answerToList xs)
        | DnsReply.nxdomain => none
        | DnsReply.servfail => some servFailSentinel
        | DnsReply.err => none }
  let s1 : DnsFields × List RType :=
    if !isNxdomain nsR then
      ({ f0 with dns_a := fieldOf (resolve RType.A), dns_aaaa := fieldOf (resolve RType.AAAA) },
       [RType.NS, RType.A, RType.AAAA])
    else (f0, [RType.NS])
  if !isNxdomain nsR && isOkReply nsR then
    ({ s1.1 with dns_mx := fieldOf (resolve RType.MX) }, s1.2 ++ [RType.MX])
  else s1

/-- CSV cell value of a column (`domain.get(c, '')` in `Format.csv`). -/
def getCol (p : Perm) (c : Str) : CellValue :=
  if c = str "fuzzer" then CellValue.vStr p.fuzzer
  else if c = str "domain" then CellValue.vStr p.domain
  else (p.extra.lookup c).getD (CellValue.vStr [])

/-- Column collection of `Format.csv`: start from `fuzzer, domain`, then
append every yet-unseen key of every row. -/
def collectCols (doms : List Perm) : List Str :=
  doms.foldl (fun acc d => acc ++ (d.extra.map Prod.fst).filter (fun k => k ∉ acc))
    [str "fuzzer", str "domain"]

/-- Header order of `Format.csv`: `cols[:2] + sorted(cols[2:])`. -/
def csvCols (doms : List Perm) : List Str :=
  let cols := collectCols doms
  cols.take 2 ++ List.insertionSort (fun a b => lexLt b a = false) (cols.drop 2)

/-- Render one CSV cell (`Format.csv`): strings containing a comma are
wrapped in double quotes, lists joined by `;`, ints printed. -/
def renderCell : CellValue → Str
  | CellValue.vStr s => if ',' ∈ s then '"' :: s ++ ['"'] else s
  | CellValue.vList l => List.intercalate [';'] l
  | CellValue.vInt n => str (toString n)

/-- Model of `Format.csv`: the header line, then one line per
permutation with cells joined by `,`; lines joined by newlines. -/
def formatCsv (doms : List Perm) : Str :=
  let cols := csvCols doms
  List.intercalate ['\n']
    (List.intercalate [','] cols ::
     doms.map (fun d => List.intercalate [','] (cols.map (fun c => renderCell (getCol d c)))))

/-- Modelled from the spec: the parse direction of the CSV round-trip
property (`CSV→parse→fields` in §8); the repository itself ships no CSV
reader.  A standard CSV cell scanner: a cell starting with a double
quote is read up to the closing quote, any other cell up to the next
comma. -/
def parseCellsAux : Bool → Str → Str → List Str
  | _, acc, [] => [acc.reverse]
  | false, acc, c :: cs =>
    if c = ',' then acc.reverse :: parseCellsAux false [] cs
    else if c = '"' ∧ acc = [] then parseCellsAux true [] cs
    else parseCellsAux false (c :: acc) cs
  | true, acc, c :: cs =>
    if c = '"' then parseCellsAux false acc cs
    else parseCellsAux true (c :: acc) cs

/-- Modelled from the spec: parse one CSV line into its cells. -/
def parseRow (line : Str) : List Str := parseCellsAux false [] line

/-- Modelled from the spec: parse a CSV document into rows of cells. -/
def parseCSV (s : Str) : List (List Str) := (splitOnChar '\n' s).map parseRow

/-- Cell at row `i`, column `j` of a parsed CSV table. -/
def cellAt (table : List (List Str)) (i j : Nat) : Str := (table.getD i []).getD j []

/-- A string that survives the CSV round-trip unharmed: no newline (they
break the row structure) and no double quote (they collide with the
quoting rule). -/
def safeStr (s : Str) : Bool := !(s.contains '\n') && !(s.contains '"')

/-- A cell value that survives the CSV round-trip: safe strings;
non-empty lists whose elements are free of separators, quotes and
newlines; ints whose rendering is free of the same characters (true of
every int, stated checkably). -/
def safeVal : CellValue → Bool
  | CellValue.vStr s => safeStr s
  | CellValue.vList l =>
    !(l.isEmpty) && l.all (fun e => !(e.contains ',') && !(e.contains ';') &&
      !(e.contains '"') && !(e.contains '\n'))
  | CellValue.vInt n => safeStr (str (toString n)) && !((str (toString n)).contains ',')

/-- Content a rendered cell should parse back to. -/
def cellContent : CellValue → Str
  | CellValue.vStr s => s
  | CellValue.vList l => List.intercalate [';'] l
  | CellValue.vInt n => str (toString n)

/-- Identity IDNA oracle: pure-ASCII domains encode to themselves. -/
def idOracle : Str → Option Str := fun s => some s

/-- Concrete `Fuzzer('example.com')` instance used by witnesses. -/
def exState : FuzzerState :=
  { subdomain := [], domain := str "example", tld := str "com",
    dictionary := [], tld_dictionary := [], domains := [] }

/-- Concrete `Fuzzer('example.com', tld_dictionary=['com','com'])`. -/
def exStateTld2 : FuzzerState := { exState with tld_dictionary := [str "com", str "com"] }

/-- Resolver oracle answering NXDOMAIN to every query. -/
def oracleNx : RType → DnsReply := fun _ => DnsReply.nxdomain

/-- Resolver oracle whose NS query fails with SERVFAIL while the other
queries succeed. -/
def oracleServfailNS : RType → DnsReply
  | RType.NS => DnsReply.servfail
  | _ => DnsReply.ok [str "192.0.2.1"]

/-- Concrete permutation list with a newline inside a string annotation. -/
def csvDoms0 : List Perm :=
  [{ fuzzer := str "addition", domain := str "examplea.com",
     extra := [(str "banner_http", CellValue.vStr (str "a\nb"))] }]

/-- Concrete permutation list with well-behaved annotations. -/
def csvDoms1 : List Perm :=
  [{ fuzzer := str "addition", domain := str "examplea.com",
     extra := [(str "dns_a", CellValue.vList [str "192.0.2.1", str "192.0.2.2"]),
               (str "banner_http", CellValue.vStr (str "nginx/1.2, unix"))] }]

/-- Concrete Fuzzer state holding one annotated (registered) permutation. -/
def annotState : FuzzerState :=
  { exState with domains :=
      [{ fuzzer := str "addition", domain := str "examplea.com",
         extra := [(str "dns_a", CellValue.vList [str "192.0.2.1", str "192.0.2.2"])] }] }


theorem insertBy_of_mem {α κ : Type} [DecidableEq κ] {k : α → κ} {acc : List α} {x : α}
    (h : ∃ a ∈ acc, k a = k x) : insertBy k acc x = acc := by
  unfold insertBy
  rw [if_pos]
  simpa using h

theorem foldl_insertBy_filter {α κ : Type} [DecidableEq κ] (k : α → κ) (x : α) :
    ∀ (l acc : List α), (∃ a ∈ acc, k a = k x) →
      l.foldl (insertBy k) acc = (l.filter (fun y => k y ≠ k x)).foldl (insertBy k) acc := by
  intro l
  induction l with
  | nil => intro acc _; rfl
  | cons y l ih =>
    intro acc hacc
    by_cases hk : k y = k x
    · rw [List.foldl_cons, List.filter_cons_of_neg (by simp [hk])]
      rw [insertBy_of_mem (by
        obtain ⟨a, ha, hka⟩ := hacc
        exact ⟨a, ha, by rw [hka, hk]⟩)]
      exact ih acc hacc
    · rw [List.foldl_cons, List.filter_cons_of_pos (by simp [hk]), List.foldl_cons]
      refine ih _ ?_
      obtain ⟨a, ha, hka⟩ := hacc
      unfold insertBy
      split
      · exact ⟨a, ha, hka⟩
      · exact ⟨a, List.mem_append_left _ ha, hka⟩

theorem foldl_insertBy_cons_out {α κ : Type} [DecidableEq κ] (k : α → κ) (x : α) :
    ∀ (m acc : List α), (∀ y ∈ m, k y ≠ k x) →
      m.foldl (insertBy k) (x :: acc) = x :: m.foldl (insertBy k) acc := by
  intro m
  induction m with
  | nil => intro acc _; rfl
  | cons y m ih =>
    intro acc hm
    rw [List.foldl_cons, List.foldl_cons]
    have hyx : k y ≠ k x := hm y (List.mem_cons_self _ _)
    have hstep : insertBy k (x :: acc) y = x :: insertBy k acc y := by
      unfold insertBy
      simp only [List.any_cons,
        show (decide (k x = k y)) = false by simpa using fun h => hyx h.symm, Bool.false_or]
      split
      · rfl
      · rfl
    rw [hstep]
    exact ih _ (fun z hz => hm z (List.mem_cons_of_mem _ hz))

theorem dedupeBy_nil {α κ : Type} [DecidableEq κ] (k : α → κ) : dedupeBy k [] = [] := rfl

theorem dedupeBy_cons {α κ : Type} [DecidableEq κ] (k : α → κ) (x : α) (l : List α) :
    dedupeBy k (x :: l) = x :: dedupeBy k (l.filter (fun y => k y ≠ k x)) := by
  unfold dedupeBy
  rw [List.foldl_cons]
  have h1 : insertBy k [] x = [x] := by simp [insertBy]
  rw [h1]
  rw [foldl_insertBy_filter k x l [x] ⟨x, List.mem_singleton_self x, rfl⟩]
  exact foldl_insertBy_cons_out k x _ [] (fun y hy => by simpa using List.of_mem_filter hy)

/-- Induction along the first-in-class recursion of `dedupeBy`. -/
theorem dedupeBy_induction {α κ : Type} [DecidableEq κ] (k : α → κ) {motive : List α → Prop}
    (case1 : motive [])
    (case2 : ∀ x t, motive (t.filter (fun y => k y ≠ k x)) → motive (x :: t)) :
    ∀ l, motive l := by
  have key : ∀ (n : Nat) (l : List α), l.length ≤ n → motive l := by
    intro n
    induction n with
    | zero =>
      intro l hl
      rw [List.eq_nil_of_length_eq_zero (Nat.le_zero.mp hl)]
      exact case1
    | succ n ih =>
      intro l hl
      match l with
      | [] => exact case1
      | x :: t =>
        exact case2 x t (ih _ (le_trans (List.length_filter_le _ _) (Nat.le_of_succ_le_succ hl)))
  exact fun l => key l.length l (le_refl _)

theorem dedupeBy_sublist {α κ : Type} [DecidableEq κ] (k : α → κ) (l : List α) :
    (dedupeBy k l).Sublist l := by
  induction l using dedupeBy_induction k with
  | case1 => simp [dedupeBy_nil]
  | case2 x t ih => rw [dedupeBy_cons]; exact (ih.trans (List.filter_sublist t)).cons₂ x

theorem mem_of_mem_dedupeBy {α κ : Type} [DecidableEq κ] {k : α → κ} {l : List α} {a : α}
    (h : a ∈ dedupeBy k l) : a ∈ l := (dedupeBy_sublist k l).subset h

theorem pairwise_dedupeBy {α κ : Type} [DecidableEq κ] (k : α → κ) (l : List α) :
    (dedupeBy k l).Pairwise (fun a b => k a ≠ k b) := by
  induction l using dedupeBy_induction k with
  | case1 => simp [dedupeBy_nil]
  | case2 x t ih =>
    rw [dedupeBy_cons]
    refine List.Pairwise.cons (fun b hb => ?_) ih
    have hb' : b ∈ t.filter (fun y => k y ≠ k x) := mem_of_mem_dedupeBy hb
    have h2 : k b ≠ k x := by simpa using List.of_mem_filter hb'
    exact fun he => h2 he.symm

theorem find?_filter_of_imp {α : Type} (p q : α → Bool)
    (hpq : ∀ y, p y = true → q y = true) :
    ∀ t : List α, (t.filter q).find? p = t.find? p := by
  intro t
  induction t with
  | nil => rfl
  | cons y t ih =>
    by_cases hq : q y = true
    · rw [List.filter_cons_of_pos hq]
      rw [List.find?_cons, List.find?_cons]
      cases hp : p y <;> simp [ih]
    · have hq' : q y = false := by simpa using hq
      have hp : p y = false := by
        cases hpy : p y
        · rfl
        · exact absurd (hpq y hpy) hq
      rw [List.filter_cons_of_neg (by simp [hq']), List.find?_cons, hp, ih]

theorem find?_dedupeBy {α κ : Type} [DecidableEq κ] (k : α → κ) (l : List α) (a : α)
    (h : a ∈ dedupeBy k l) : l.find? (fun b => decide (k b = k a)) = some a := by
  induction l using dedupeBy_induction k with
  | case1 => simp [dedupeBy_nil] at h
  | case2 x t ih =>
    rw [dedupeBy_cons] at h
    rcases List.mem_cons.mp h with rfl | h2
    · simp [List.find?_cons]
    · have hmem : a ∈ t.filter (fun y => k y ≠ k x) := mem_of_mem_dedupeBy h2
      have hne : k a ≠ k x := by simpa using List.of_mem_filter hmem
      have hxa : (decide (k x = k a)) = false := by
        simpa using fun he => hne he.symm
      rw [List.find?_cons, hxa]
      rw [← find?_filter_of_imp (fun b => decide (k b = k a)) (fun y => decide (k y ≠ k x))
        (fun y hy => by
          simp only [decide_eq_true_eq] at hy
          simpa [hy] using hne) t]
      exact ih h2

theorem exists_mem_dedupeBy {α κ : Type} [DecidableEq κ] (k : α → κ) (l : List α) (a : α)
    (h : a ∈ l) : ∃ b ∈ dedupeBy k l, k b = k a := by
  induction l using dedupeBy_induction k with
  | case1 => simp at h
  | case2 x t ih =>
    rw [dedupeBy_cons]
    rcases List.mem_cons.mp h with rfl | h2
    · exact ⟨a, List.mem_cons_self _ _, rfl⟩
    · by_cases he : k a = k x
      · exact ⟨x, List.mem_cons_self _ _, he.symm⟩
      · have hmem : a ∈ t.filter (fun y => k y ≠ k x) :=
          List.mem_filter.mpr ⟨h2, by simpa using fun hc => he hc⟩
        obtain ⟨b, hb, hkb⟩ := ih hmem
        exact ⟨b, List.mem_cons_of_mem _ hb, hkb⟩


theorem filter_dedupeBy_comm {α κ : Type} [DecidableEq κ] (k : α → κ) (p : α → Bool)
    (hp : ∀ a b, k a = k b → p a = p b) (l : List α) :
    (dedupeBy k l).filter p = dedupeBy k (l.filter p) := by
  induction l using dedupeBy_induction k with
  | case1 => simp [dedupeBy_nil]
  | case2 x t ih =>
    rw [dedupeBy_cons]
    by_cases hx : p x = true
    · rw [List.filter_cons_of_pos hx, List.filter_cons_of_pos hx, dedupeBy_cons, ih]
      congr 1
      refine congrArg (dedupeBy k) ?_
      rw [List.filter_filter, List.filter_filter]
      exact List.filter_congr (fun y _ => by rw [Bool.and_comm])
    · have hx' : p x = false := by simpa using hx
      rw [List.filter_cons_of_neg (by simp [hx']), List.filter_cons_of_neg (by simp [hx']), ih]
      refine congrArg (dedupeBy k) ?_
      rw [List.filter_filter]
      refine List.filter_congr (fun y _ => ?_)
      by_cases hy : p y = true
      · have hne : k y ≠ k x := fun he => by
          rw [hp y x he] at hy
          rw [hx'] at hy
          exact Bool.false_ne_true hy
        simp [hy, hne]
      · have : p y = false := by simpa using hy
        simp [this]

theorem dedupeBy_map_comm_fuel {α β κ₁ κ₂ : Type} [DecidableEq κ₁] [DecidableEq κ₂]
    (k₁ : α → κ₁) (k₂ : β → κ₂) (f : α → β)
    (hf : ∀ a b, k₁ a = k₁ b → k₂ (f a) = k₂ (f b)) :
    ∀ (n : Nat) (l : List α), l.length ≤ n →
      dedupeBy k₂ ((dedupeBy k₁ l).map f) = dedupeBy k₂ (l.map f) := by
  intro n
  induction n with
  | zero =>
    intro l hl
    rw [List.eq_nil_of_length_eq_zero (Nat.le_zero.mp hl), dedupeBy_nil]
  | succ n ih =>
    intro l hl
    match l with
    | [] => rw [dedupeBy_nil]
    | x :: t =>
      rw [dedupeBy_cons, List.map_cons, dedupeBy_cons, List.map_cons, dedupeBy_cons]
      congr 1
      rw [List.filter_map, List.filter_map]
      rw [filter_dedupeBy_comm k₁ _ (fun a b hab => by
        simp only [Function.comp]
        rw [hf a b hab])]
      have hcollapse :
          (t.filter (fun y => k₁ y ≠ k₁ x)).filter ((fun y => decide (k₂ y ≠ k₂ (f x))) ∘ f)
            = t.filter ((fun y => decide (k₂ y ≠ k₂ (f x))) ∘ f) := by
        rw [List.filter_filter]
        refine List.filter_congr (fun y _ => ?_)
        by_cases hy : k₂ (f y) = k₂ (f x)
        · simp [Function.comp, hy]
        · have hne : k₁ y ≠ k₁ x := fun he => hy (hf y x he)
          simp [Function.comp, hy, hne]
      rw [hcollapse]
      exact ih (t.filter ((fun y => decide (k₂ y ≠ k₂ (f x))) ∘ f))
        (le_trans (List.length_filter_le _ _) (Nat.le_of_succ_le_succ hl))

theorem dedupeBy_map_comm {α β κ₁ κ₂ : Type} [DecidableEq κ₁] [DecidableEq κ₂]
    (k₁ : α → κ₁) (k₂ : β → κ₂) (f : α → β)
    (hf : ∀ a b, k₁ a = k₁ b → k₂ (f a) = k₂ (f b)) (l : List α) :
    dedupeBy k₂ ((dedupeBy k₁ l).map f) = dedupeBy k₂ (l.map f) :=
  dedupeBy_map_comm_fuel k₁ k₂ f hf l.length l (le_refl _)

theorem generate_domains_eq (enc : Str → Option Str) (st : FuzzerState) (fz : List Str) :
    (generate enc st fz).domains =
      (dedupeBy Perm.domain ((genCandidates st fz).1.map (punycodePerm enc))).filter
        (fun p => validFQDN p.domain) := by
  show (dedupeBy Perm.domain ((dedupeBy Perm.domain (genCandidates st fz).1).map
      (punycodePerm enc))).filter (fun p => validFQDN p.domain) = _
  rw [dedupeBy_map_comm Perm.domain Perm.domain (punycodePerm enc)
    (fun a b h => by simp [punycodePerm, h])]



theorem exists_candidate_of_mem_generate (enc : Str → Option Str) (st : FuzzerState)
    (fz : List Str) (p : Perm) (hp : p ∈ (generate enc st fz).domains) :
    ∃ c ∈ (genCandidates st fz).1, p = punycodePerm enc c ∧ validFQDN p.domain = true := by
  rw [generate_domains_eq] at hp
  have h1 := List.mem_filter.mp hp
  have h2 := mem_of_mem_dedupeBy h1.1
  obtain ⟨c, hc, hcp⟩ := List.mem_map.mp h2
  exact ⟨c, hc, hcp.symm, by simpa using h1.2⟩

theorem generate_pairwise (enc : Str → Option Str) (st : FuzzerState) (fz : List Str) :
    ((generate enc st fz).domains).Pairwise (fun p q => p.domain ≠ q.domain) := by
  rw [generate_domains_eq]
  exact (pairwise_dedupeBy Perm.domain _).filter _

theorem pairwise_ne_inj {l : List Perm} (h : l.Pairwise (fun p q => p.domain ≠ q.domain))
    {p q : Perm} (hp : p ∈ l) (hq : q ∈ l) (hd : p.domain = q.domain) : p = q := by
  have hnodup : (l.map Perm.domain).Nodup :=
    List.Pairwise.map Perm.domain (fun a b (hab : a.domain ≠ b.domain) => hab) h
  exact List.inj_on_of_nodup_map hnodup hp hq hd

/-- Claim C4: for every seed domain and every dictionary/tld_dictionary
input, the permutation set produced by `Fuzzer.generate` contains no two
permutations with the same domain string (permutation equality and
hashing being by the domain field alone, as modelled by `dedupeBy
Perm.domain`). -/
theorem C4_theorem (enc : Str → Option Str) (st : FuzzerState) (fz : List Str) :
    ((generate enc st fz).domains).Pairwise (fun p q => p.domain ≠ q.domain) :=
  generate_pairwise enc st fz

/-- Claim C9: a permutation surviving in the output of `Fuzzer.generate`
is exactly the first candidate, in the engine's fixed execution order
(`*original`, then the selected fuzzer list in order, then `tld-swap`,
then `various`), whose Punycode-encoded domain equals its domain — set
insertion keeps the first-inserted element among domain-equal
permutations — and the output holds exactly one permutation per domain. -/
theorem C9_theorem (enc : Str → Option Str) (st : FuzzerState) (fz : List Str) (p : Perm)
    (hp : p ∈ (generate enc st fz).domains) :
    ((genCandidates st fz).1.map (punycodePerm enc)).find? (fun q => decide (q.domain = p.domain))
      = some p ∧
    ∀ q ∈ (generate enc st fz).domains, q.domain = p.domain → q = p := by
  constructor
  · rw [generate_domains_eq] at hp
    exact find?_dedupeBy Perm.domain _ p (List.mem_filter.mp hp).1
  · intro q hq hdq
    exact pairwise_ne_inj (generate_pairwise enc st fz) hq hp hdq

/-- Witness for C9 at seed `example.com`, fuzzers `['vowel-swap']`: the
surviving `example.com` permutation is the first encoded candidate with
that domain, and is unique. -/
theorem C9_witness :
    ((genCandidates exState [str "vowel-swap"]).1.map (punycodePerm idOracle)).find?
        (fun q => decide (q.domain = ({ fuzzer := str "vowel-swap", domain := str "example.com" } : Perm).domain))
      = some { fuzzer := str "vowel-swap", domain := str "example.com" } :=
  (C9_theorem idOracle exState [str "vowel-swap"]
    { fuzzer := str "vowel-swap", domain := str "example.com" } (by decide)).1

/-- Counterexample to claim C1 as stated: with the restricted fuzzer
selection `['vowel-swap']`, the engine emits the unchanged seed domain
`example.com` tagged `vowel-swap` (substituting the vowel already in
place), so `P.domain = D` with `P.fuzzer ≠ '*original'`. -/
theorem C1_counterexample :
    domain_tld (str "example.com") = ([], str "example", str "com") ∧
    ({ fuzzer := str "vowel-swap", domain := str "example.com" } : Perm) ∈
      (generate idOracle exState [str "vowel-swap"]).domains ∧
    (str "vowel-swap" : Str) ≠ str "*original" := by decide

/-- Claim C1 (amended): provided the fuzzer selection includes
`*original` (in particular the empty/default selection), every emitted
permutation not tagged `*original` differs from the (encoded) original
domain; for restricted selections excluding `*original` the engine can
re-emit the seed itself under the fuzzer's own tag. -/
theorem C1_theorem (enc : Str → Option Str) (st : FuzzerState) (fz : List Str)
    (hsel : fz = [] ∨ str "*original" ∈ fz) (p : Perm)
    (hp : p ∈ (generate enc st fz).domains)
    (hfz : p.fuzzer ≠ str "*original") :
    p.domain ≠ punyEnc enc (joinNonEmpty [st.subdomain, st.domain, st.tld]) := by
  intro hd
  rw [generate_domains_eq] at hp
  have hfind := find?_dedupeBy Perm.domain _ p (List.mem_filter.mp hp).1
  have hhead : ∃ rest, (genCandidates st fz).1 = origPerm st :: rest := by
    unfold genCandidates origPerm
    rcases hsel with h | h <;> simp [h]
  obtain ⟨rest, hrest⟩ := hhead
  rw [hrest, List.map_cons, List.find?_cons] at hfind
  have htest : (decide ((punycodePerm enc (origPerm st)).domain = p.domain)) = true := by
    simp [punycodePerm, punyEnc, origPerm, hd]
  rw [htest] at hfind
  have hpe : p = punycodePerm enc (origPerm st) := by
    injection hfind with h
    exact h.symm
  apply hfz
  rw [hpe]
  rfl

/-- Witness for the amended C1: with `*original` selected alongside
`vowel-swap`, the emitted `axample.com` differs from the original. -/
theorem C1_witness :
    ({ fuzzer := str "vowel-swap", domain := str "axample.com" } : Perm).domain ≠
      punyEnc idOracle (joinNonEmpty [exState.subdomain, exState.domain, exState.tld]) :=
  C1_theorem idOracle exState [str "*original", str "vowel-swap"] (Or.inr (by decide))
    { fuzzer := str "vowel-swap", domain := str "axample.com" } (by decide) (by decide)

/-- Claim C2: every permutation surviving `Fuzzer.generate` has a domain
that (a) passes `VALID_FQDN_REGEX` in its encoded form, and (b) — for
an IDNA oracle pair that round-trips on the image of `encode`, which
the `idna` library satisfies — decodes and re-encodes to itself. -/
theorem C2_theorem (enc dec : Str → Option Str) (st : FuzzerState) (fz : List Str) :
    (∀ p ∈ (generate enc st fz).domains, validFQDN p.domain = true) ∧
    ((∀ x y, enc x = some y → ∃ u, dec y = some u ∧ enc u = some y) →
      ∀ p ∈ (generate enc st fz).domains,
        ∃ u, dec p.domain = some u ∧ enc u = some p.domain) := by
  constructor
  · intro p hp
    rw [generate_domains_eq] at hp
    simpa using (List.mem_filter.mp hp).2
  · intro hrt p hp
    obtain ⟨c, _, hpc, hvalid⟩ := exists_candidate_of_mem_generate enc st fz p hp
    rcases henc : enc c.domain with _ | y
    · have hnil : p.domain = [] := by rw [hpc]; simp [punycodePerm, punyEnc, henc]
      rw [hnil] at hvalid
      exact absurd hvalid (by decide)
    · have hpd : p.domain = y := by rw [hpc]; simp [punycodePerm, punyEnc, henc]
      rw [hpd]
      exact hrt c.domain y henc

/-- Witness for C2: the identity oracle pair round-trips, and the
emitted `axample.com` decodes and re-encodes to itself. -/
theorem C2_witness :
    ∃ u, idOracle (({ fuzzer := str "vowel-swap", domain := str "axample.com" } : Perm).domain)
        = some u ∧
      idOracle u = some (({ fuzzer := str "vowel-swap", domain := str "axample.com" } : Perm).domain) :=
  (C2_theorem idOracle idOracle exState [str "vowel-swap"]).2
    (fun _ y _ => ⟨y, rfl, rfl⟩)
    { fuzzer := str "vowel-swap", domain := str "axample.com" } (by decide)



theorem count_tldStep_le (tld : Str) (d : List Str) :
    (tldStep tld d).count tld ≤ d.count tld := by
  unfold tldStep
  split
  · rw [List.count_erase_self]; omega
  · exact le_refl _

theorem count_tldStep_zero (tld : Str) (d : List Str) (h : d.count tld ≤ 1) :
    (tldStep tld d).count tld = 0 := by
  unfold tldStep
  split
  · rename_i hmem
    rw [List.count_erase_self]
    have h1 : 0 < d.count tld := List.count_pos_iff.mpr hmem
    omega
  · rename_i hmem
    exact List.count_eq_zero.mpr hmem

theorem tldStep_of_count_zero {tld : Str} {d : List Str} (h : d.count tld = 0) :
    tldStep tld d = d := by
  unfold tldStep
  rw [if_neg]
  exact List.count_eq_zero.mp h

theorem tldStep_idem (tld : Str) (d : List Str) (h : d.count tld ≤ 1) :
    tldStep tld (tldStep tld d) = tldStep tld d :=
  tldStep_of_count_zero (count_tldStep_zero tld d h)

theorem tldStep_subset (tld : Str) (d : List Str) : tldStep tld d ⊆ d := by
  unfold tldStep
  split
  · exact List.erase_subset _ _
  · exact fun _ h => h

theorem not_mem_of_count_zero {tld t : Str} {d : List Str}
    (h : d.count tld = 0) (ht : t ∈ d) : t ≠ tld := by
  intro he
  subst he
  exact absurd ht (List.count_eq_zero.mp h)

theorem fuzzerStep_eq (st : FuzzerState) (td : List Str) (n : Str) :
    (n ≠ str "tld" ∧ fuzzerStep st td n = (fuzzerEmit st n, td)) ∨
    (n = str "tld" ∧ fuzzerStep st td n = ((tldStep st.tld td).dedup, tldStep st.tld td)) := by
  by_cases h : n = str "tld"
  · exact Or.inr ⟨h, by simp [fuzzerStep, h]⟩
  · exact Or.inl ⟨h, by simp [fuzzerStep, h]⟩

theorem loopRun_nil (st : FuzzerState) (td : List Str) : loopRun st [] td = ([], td) := rfl

theorem loopRun_cons (st : FuzzerState) (n : Str) (ns : List Str) (td : List Str) :
    loopRun st (n :: ns) td =
      ((fuzzerStep st td n).1.map
          (fun d => { fuzzer := n, domain := joinNonEmpty [st.subdomain, d, st.tld] }) ++
        (loopRun st ns (fuzzerStep st td n).2).1,
       (loopRun st ns (fuzzerStep st td n).2).2) := rfl

theorem loopRun_dict (st : FuzzerState) (names : List Str) :
    ∀ td, td.count st.tld ≤ 1 →
      (loopRun st names td).2 = if str "tld" ∈ names then tldStep st.tld td else td := by
  induction names with
  | nil => intro td _; simp [loopRun_nil]
  | cons n ns ih =>
    intro td h
    rcases fuzzerStep_eq st td n with ⟨hne, heq⟩ | ⟨he, heq⟩
    · rw [loopRun_cons, heq]
      simp only []
      rw [ih td h]
      by_cases hm : str "tld" ∈ ns
      · rw [if_pos hm, if_pos (List.mem_cons_of_mem _ hm)]
      · rw [if_neg hm, if_neg (fun hmem =>
          hm (((List.mem_cons.mp hmem).resolve_left (fun hc => hne hc.symm))))]
    · subst he
      rw [loopRun_cons, heq]
      simp only []
      rw [ih _ (le_trans (count_tldStep_le _ _) h)]
      rw [tldStep_idem _ _ h]
      simp

theorem loopRun_S (st : FuzzerState) (names : List Str) :
    ∀ td, td.count st.tld ≤ 1 →
      loopRun st names (tldStep st.tld td) =
        ((loopRun st names td).1, tldStep st.tld (loopRun st names td).2) := by
  induction names with
  | nil => intro td _; simp [loopRun_nil]
  | cons n ns ih =>
    intro td h
    have hS : (tldStep st.tld td).count st.tld ≤ 1 :=
      le_trans (count_tldStep_le _ _) h
    rcases fuzzerStep_eq st (tldStep st.tld td) n with ⟨hne, heq⟩ | ⟨he, heq⟩
    · obtain ⟨hne2, heq2⟩ | ⟨hc, _⟩ := fuzzerStep_eq st td n
      · rw [loopRun_cons, loopRun_cons, heq, heq2]
        simp only []
        rw [ih td h]
      · exact absurd hc hne
    · subst he
      rw [loopRun_cons, loopRun_cons, heq]
      obtain ⟨hc, _⟩ | ⟨_, heq2⟩ := fuzzerStep_eq st td (str "tld")
      · exact absurd rfl hc
      · rw [heq2]
        simp only []
        rw [tldStep_idem _ _ h]
        have hfix : (loopRun st ns (tldStep st.tld td)).2 = tldStep st.tld td := by
          rw [loopRun_dict st ns _ hS]
          split
          · exact tldStep_idem _ _ h
          · rfl
        rw [hfix, tldStep_idem _ _ h]



theorem fuzzerEmit_congr (st₁ st₂ : FuzzerState)
    (h2 : st₁.domain = st₂.domain) (h3 : st₁.tld = st₂.tld)
    (h4 : st₁.dictionary = st₂.dictionary) (n : Str) :
    fuzzerEmit st₁ n = fuzzerEmit st₂ n := by
  unfold fuzzerEmit
  rw [h2, h3, h4]

theorem fuzzerStep_congr (st₁ st₂ : FuzzerState)
    (h2 : st₁.domain = st₂.domain) (h3 : st₁.tld = st₂.tld)
    (h4 : st₁.dictionary = st₂.dictionary) (td : List Str) (n : Str) :
    fuzzerStep st₁ td n = fuzzerStep st₂ td n := by
  unfold fuzzerStep
  rw [h3, fuzzerEmit_congr st₁ st₂ h2 h3 h4]

theorem loopRun_congr (st₁ st₂ : FuzzerState)
    (h1 : st₁.subdomain = st₂.subdomain) (h2 : st₁.domain = st₂.domain)
    (h3 : st₁.tld = st₂.tld) (h4 : st₁.dictionary = st₂.dictionary) :
    ∀ (names : List Str) (td : List Str), loopRun st₁ names td = loopRun st₂ names td := by
  intro names
  induction names with
  | nil => intro td; rfl
  | cons n ns ih =>
    intro td
    rw [loopRun_cons, loopRun_cons, fuzzerStep_congr st₁ st₂ h2 h3 h4 td n, ih]
    simp only [h1, h3]

theorem various_congr (st₁ st₂ : FuzzerState)
    (h1 : st₁.subdomain = st₂.subdomain) (h2 : st₁.domain = st₂.domain)
    (h3 : st₁.tld = st₂.tld) : various st₁ = various st₂ := by
  unfold various
  simp only [h1, h2, h3]

theorem genCandidates_congr (st₁ st₂ : FuzzerState)
    (h1 : st₁.subdomain = st₂.subdomain) (h2 : st₁.domain = st₂.domain)
    (h3 : st₁.tld = st₂.tld) (h4 : st₁.dictionary = st₂.dictionary)
    (h5 : st₁.tld_dictionary = st₂.tld_dictionary) (fz : List Str) :
    genCandidates st₁ fz = genCandidates st₂ fz := by
  unfold genCandidates
  simp only [loopRun_congr st₁ st₂ h1 h2 h3 h4, various_congr st₁ st₂ h1 h2 h3, h1, h2, h3, h5]


theorem genCandidates_def (st : FuzzerState) (fz : List Str) :
    genCandidates st fz =
      ((if fz = [] ∨ str "*original" ∈ fz then [origPerm st] else []) ++
        (loopRun st (if fz = [] then defaultFuzzers else fz) st.tld_dictionary).1 ++
        (if fz = [] ∨ str "tld-swap" ∈ fz then
          (tldStep st.tld
              (loopRun st (if fz = [] then defaultFuzzers else fz) st.tld_dictionary).2).dedup.map
            (fun t => { fuzzer := str "tld-swap", domain := joinNonEmpty [st.subdomain, st.domain, t] })
         else []) ++
        (if fz = [] ∨ str "various" ∈ fz then various st else []),
       if fz = [] ∨ str "tld-swap" ∈ fz then
         tldStep st.tld (loopRun st (if fz = [] then defaultFuzzers else fz) st.tld_dictionary).2
       else (loopRun st (if fz = [] then defaultFuzzers else fz) st.tld_dictionary).2) := by
  unfold genCandidates origPerm
  by_cases hsel : fz = [] ∨ str "tld-swap" ∈ fz <;> simp [hsel]

theorem genCandidates_fst (st : FuzzerState) (fz : List Str) :
    (genCandidates st fz).1 =
      (if fz = [] ∨ str "*original" ∈ fz then [origPerm st] else []) ++
        (loopRun st (if fz = [] then defaultFuzzers else fz) st.tld_dictionary).1 ++
        (if fz = [] ∨ str "tld-swap" ∈ fz then
          (tldStep st.tld
              (loopRun st (if fz = [] then defaultFuzzers else fz) st.tld_dictionary).2).dedup.map
            (fun t => { fuzzer := str "tld-swap", domain := joinNonEmpty [st.subdomain, st.domain, t] })
         else []) ++
        (if fz = [] ∨ str "various" ∈ fz then various st else []) := by
  rw [genCandidates_def]

theorem genCandidates_snd (st : FuzzerState) (fz : List Str) :
    (genCandidates st fz).2 =
      if fz = [] ∨ str "tld-swap" ∈ fz then
        tldStep st.tld (loopRun st (if fz = [] then defaultFuzzers else fz) st.tld_dictionary).2
      else (loopRun st (if fz = [] then defaultFuzzers else fz) st.tld_dictionary).2 := by
  rw [genCandidates_def]

theorem generate_def (enc : Str → Option Str) (st : FuzzerState) (fz : List Str) :
    generate enc st fz =
      { st with
        domains := (dedupeBy Perm.domain ((dedupeBy Perm.domain
          (genCandidates st fz).1).map (punycodePerm enc))).filter (fun p => validFQDN p.domain),
        tld_dictionary := (genCandidates st fz).2 } := rfl

/-- Counterexample to claim C8 as stated: with
`tld_dictionary = ['com', 'com']` for seed `example.com` (TLD `com`),
`Fuzzer._tld` removes one occurrence per call, so two successive
`generate(['tld-swap'])` calls on the same instance return different
permutation sets. -/
theorem C8_counterexample :
    (generate idOracle (generate idOracle exStateTld2 [str "tld-swap"]) [str "tld-swap"]).domains ≠
      (generate idOracle exStateTld2 [str "tld-swap"]).domains := by decide

/-- Claim C8 (amended): `Fuzzer.generate` is deterministic — two
successive calls on the same instance return identical results,
permutation sets and fuzzer tags included — provided the TLD dictionary
holds the seed's own TLD at most once (`Fuzzer._tld` mutates the stored
dictionary, removing one occurrence of the current TLD on every call
that runs it). -/
theorem C8_theorem (enc : Str → Option Str) (st : FuzzerState) (fz : List Str)
    (hcount : st.tld_dictionary.count st.tld ≤ 1) :
    generate enc (generate enc st fz) fz = generate enc st fz := by
  set names := if fz = [] then defaultFuzzers else fz with hnames
  have hl2 : (loopRun st names st.tld_dictionary).2 =
      if str "tld" ∈ names then tldStep st.tld st.tld_dictionary else st.tld_dictionary :=
    loopRun_dict st names st.tld_dictionary hcount
  have hcount2 : (loopRun st names st.tld_dictionary).2.count st.tld ≤ 1 := by
    rw [hl2]
    split
    · rw [count_tldStep_zero st.tld st.tld_dictionary hcount]; omega
    · exact hcount
  have hgc : genCandidates (generate enc st fz) fz = genCandidates st fz := by
    have hcongr : genCandidates (generate enc st fz) fz =
        genCandidates { st with tld_dictionary := (genCandidates st fz).2 } fz :=
      genCandidates_congr (generate enc st fz)
        { st with tld_dictionary := (genCandidates st fz).2 } rfl rfl rfl rfl rfl fz
    rw [hcongr]
    have hfields : ∀ d td : List Str,
        loopRun { st with tld_dictionary := d } names td = loopRun st names td :=
      fun d td => loopRun_congr { st with tld_dictionary := d } st rfl rfl rfl rfl names td
    have hvar : ∀ d : List Str, various { st with tld_dictionary := d } = various st :=
      fun d => various_congr { st with tld_dictionary := d } st rfl rfl rfl
    have horig : ∀ d : List Str, origPerm { st with tld_dictionary := d } = origPerm st :=
      fun _ => rfl
    have hproj : ∀ d : List Str,
        ({ st with tld_dictionary := d } : FuzzerState).tld_dictionary = d := fun _ => rfl
    have hsub : ∀ d : List Str,
        ({ st with tld_dictionary := d } : FuzzerState).subdomain = st.subdomain := fun _ => rfl
    have hdom : ∀ d : List Str,
        ({ st with tld_dictionary := d } : FuzzerState).domain = st.domain := fun _ => rfl
    have htl : ∀ d : List Str,
        ({ st with tld_dictionary := d } : FuzzerState).tld = st.tld := fun _ => rfl
    have hSidem : tldStep st.tld (tldStep st.tld st.tld_dictionary)
        = tldStep st.tld st.tld_dictionary := tldStep_idem st.tld st.tld_dictionary hcount
    by_cases hsel : fz = [] ∨ str "tld-swap" ∈ fz
    · have hd1 : (genCandidates st fz).2 = tldStep st.tld st.tld_dictionary := by
        rw [genCandidates_snd, if_pos hsel, ← hnames, hl2]
        split
        · exact tldStep_idem st.tld st.tld_dictionary hcount
        · rfl
      have hlr' : loopRun st names (tldStep st.tld st.tld_dictionary) =
          ((loopRun st names st.tld_dictionary).1,
           tldStep st.tld (loopRun st names st.tld_dictionary).2) :=
        loopRun_S st names st.tld_dictionary hcount
      have hSS : tldStep st.tld (tldStep st.tld (loopRun st names st.tld_dictionary).2)
          = tldStep st.tld (loopRun st names st.tld_dictionary).2 :=
        tldStep_idem st.tld _ hcount2
      rw [hd1, Prod.ext_iff]
      refine ⟨?_, ?_⟩
      · simp only [genCandidates_fst]
        simp only [← hnames, hproj, hsub, hdom, htl, hfields, hvar, horig, hlr', hSS, hSidem]
      · simp only [genCandidates_snd]
        simp only [← hnames, hproj, htl, hfields, hlr', if_pos hsel, hSS, hSidem]
    · have hd1 : (genCandidates st fz).2 = (loopRun st names st.tld_dictionary).2 := by
        rw [genCandidates_snd, if_neg hsel, ← hnames]
      by_cases hT : str "tld" ∈ names
      · have hlr2 : (loopRun st names st.tld_dictionary).2 = tldStep st.tld st.tld_dictionary := by
          rw [hl2, if_pos hT]
        have hlr' : loopRun st names (tldStep st.tld st.tld_dictionary) =
            ((loopRun st names st.tld_dictionary).1,
             tldStep st.tld (loopRun st names st.tld_dictionary).2) :=
          loopRun_S st names st.tld_dictionary hcount
        have hSS : tldStep st.tld (loopRun st names st.tld_dictionary).2
            = (loopRun st names st.tld_dictionary).2 := by
          rw [hlr2]
          exact tldStep_idem st.tld st.tld_dictionary hcount
        rw [hd1, hlr2, Prod.ext_iff]
        refine ⟨?_, ?_⟩
        · simp only [genCandidates_fst]
          simp only [← hnames, hproj, hsub, hdom, htl, hfields, hvar, horig, hlr', hlr2, hSS, hSidem]
        · simp only [genCandidates_snd]
          simp only [← hnames, hproj, htl, hfields, if_neg hsel, hlr', hlr2, hSS, hSidem]
      · have hlr2 : (loopRun st names st.tld_dictionary).2 = st.tld_dictionary := by
          rw [hl2, if_neg hT]
        rw [hd1, hlr2]
  have h1 := generate_def enc (generate enc st fz) fz
  rw [h1, hgc, generate_def enc st fz]

/-- Witness for the amended C8: a second default `generate` run on the
`example.com` fuzzer (whose TLD dictionary is empty) equals the first. -/
theorem C8_witness :
    generate idOracle (generate idOracle exState []) [] = generate idOracle exState [] :=
  C8_theorem idOracle exState [] (by decide)



theorem fuzzerEmit_tld_swap (st : FuzzerState) : fuzzerEmit st (str "tld-swap") = [] := rfl

theorem mem_loopRun (st : FuzzerState) :
    ∀ (names td : List Str) (c : Perm), c ∈ (loopRun st names td).1 →
      ∃ n ∈ names, ∃ td' d, d ∈ (fuzzerStep st td' n).1 ∧
        c = { fuzzer := n, domain := joinNonEmpty [st.subdomain, d, st.tld] } := by
  intro names
  induction names with
  | nil => intro td c hc; simp [loopRun_nil] at hc
  | cons n ns ih =>
    intro td c hc
    rw [loopRun_cons] at hc
    simp only [List.mem_append] at hc
    rcases hc with hc | hc
    · obtain ⟨d, hd, hcd⟩ := List.mem_map.mp hc
      exact ⟨n, List.mem_cons_self _ _, td, d, hd, hcd.symm⟩
    · obtain ⟨n', hn', td', d, hd, hcd⟩ := ih _ c hc
      exact ⟨n', List.mem_cons_of_mem _ hn', td', d, hd, hcd⟩

theorem mem_various_fuzzer (st : FuzzerState) (c : Perm) (hc : c ∈ various st) :
    c.fuzzer = str "various" := by
  unfold various at hc
  simp only [List.mem_append] at hc
  rcases hc with ((hc | hc) | hc) | hc <;>
    · split at hc
      · simp only [List.mem_cons, List.not_mem_nil, or_false] at hc
        first
          | (rcases hc with rfl | rfl | rfl | rfl <;> rfl)
          | (rcases hc with rfl | rfl <;> rfl)
          | (rcases hc with rfl <;> rfl)
          | (subst hc; rfl)
      · simp at hc

theorem mem_genCandidates (st : FuzzerState) (fz : List Str) (c : Perm)
    (hc : c ∈ (genCandidates st fz).1) :
    c = origPerm st ∨
    c ∈ (loopRun st (if fz = [] then defaultFuzzers else fz) st.tld_dictionary).1 ∨
    ((fz = [] ∨ str "tld-swap" ∈ fz) ∧
      ∃ t ∈ tldStep st.tld
          (loopRun st (if fz = [] then defaultFuzzers else fz) st.tld_dictionary).2,
        c = { fuzzer := str "tld-swap", domain := joinNonEmpty [st.subdomain, st.domain, t] }) ∨
    c ∈ various st := by
  rw [genCandidates_fst] at hc
  simp only [List.mem_append] at hc
  rcases hc with ((h | h) | h) | h
  · left
    split at h
    · simpa using h
    · simp at h
  · right; left; exact h
  · right; right; left
    split at h
    · rename_i hsel
      obtain ⟨t, ht, hct⟩ := List.mem_map.mp h
      exact ⟨hsel, t, List.mem_dedup.mp ht, hct.symm⟩
    · simp at h
  · right; right; right
    split at h
    · exact h
    · simp at h

/-- Counterexample to claim C5 as stated: with
`tld_dictionary = ['com', 'com']` and seed `example.com`, `Fuzzer._tld`
removes only one of the two `'com'` entries, so `tld-swap` emits
`example.com` — whose TLD equals the original TLD `com`. -/
theorem C5_counterexample :
    ({ fuzzer := str "tld-swap", domain := str "example.com" } : Perm) ∈
      (generate idOracle exStateTld2 [str "tld-swap"]).domains ∧
    exStateTld2.tld = str "com" ∧
    (domain_tld (str "example.com")).2.2 = str "com" := by decide

/-- Claim C5 (amended): provided the TLD dictionary holds the original
TLD at most once, every `tld-swap` permutation surviving
`Fuzzer.generate` is built from a dictionary TLD different from the
original TLD. -/
theorem C5_theorem (enc : Str → Option Str) (st : FuzzerState) (fz : List Str)
    (hcount : st.tld_dictionary.count st.tld ≤ 1) (p : Perm)
    (hp : p ∈ (generate enc st fz).domains) (hf : p.fuzzer = str "tld-swap") :
    ∃ t, t ∈ st.tld_dictionary ∧ t ≠ st.tld ∧
      p.domain = punyEnc enc (joinNonEmpty [st.subdomain, st.domain, t]) := by
  obtain ⟨c, hc, hpc, _⟩ := exists_candidate_of_mem_generate enc st fz p hp
  have hcf : c.fuzzer = str "tld-swap" := by rw [hpc] at hf; exact hf
  rcases mem_genCandidates st fz c hc with h | h | ⟨_, t, ht, hct⟩ | h
  · rw [h] at hcf
    have hco : (str "*original" : Str) = str "tld-swap" := hcf
    exact absurd hco (by decide)
  · exfalso
    obtain ⟨n, _, td', d, hd, hcd⟩ := mem_loopRun st _ _ c h
    rw [hcd] at hcf
    have hn : n = str "tld-swap" := hcf
    rw [hn] at hd
    rcases fuzzerStep_eq st td' (str "tld-swap") with ⟨_, heq⟩ | ⟨habs, _⟩
    · rw [heq] at hd
      rw [fuzzerEmit_tld_swap] at hd
      simp at hd
    · exact absurd habs (by decide)
  · have hcount2 : (tldStep st.tld
        (loopRun st (if fz = [] then defaultFuzzers else fz) st.tld_dictionary).2).count st.tld
          = 0 := by
      apply count_tldStep_zero
      rw [loopRun_dict st _ _ hcount]
      by_cases hT : str "tld" ∈ (if fz = [] then defaultFuzzers else fz)
      · rw [if_pos hT, count_tldStep_zero st.tld st.tld_dictionary hcount]
        omega
      · rw [if_neg hT]
        exact hcount
    refine ⟨t, ?_, not_mem_of_count_zero hcount2 ht, ?_⟩
    · have h1 := tldStep_subset st.tld _ ht
      rw [loopRun_dict st _ _ hcount] at h1
      by_cases hT : str "tld" ∈ (if fz = [] then defaultFuzzers else fz)
      · rw [if_pos hT] at h1
        exact tldStep_subset st.tld st.tld_dictionary h1
      · rw [if_neg hT] at h1
        exact h1
    · rw [hpc, hct]
      rfl
  · rw [mem_various_fuzzer st c h] at hcf
    exact absurd hcf.symm (by decide)

/-- Witness for the amended C5: with `tld_dictionary = ['net']`, the
emitted `example.net` comes from a TLD different from `com`. -/
theorem C5_witness :
    ∃ t, t ∈ ({ exState with tld_dictionary := [str "net"] } : FuzzerState).tld_dictionary ∧
      t ≠ ({ exState with tld_dictionary := [str "net"] } : FuzzerState).tld ∧
      ({ fuzzer := str "tld-swap", domain := str "example.net" } : Perm).domain =
        punyEnc idOracle (joinNonEmpty
          [({ exState with tld_dictionary := [str "net"] } : FuzzerState).subdomain,
           ({ exState with tld_dictionary := [str "net"] } : FuzzerState).domain, t]) :=
  C5_theorem idOracle { exState with tld_dictionary := [str "net"] } [str "tld-swap"]
    (by decide) { fuzzer := str "tld-swap", domain := str "example.net" } (by decide) (by decide)



theorem getD_delete_self (d : Str) :
    ∀ x, x < d.length → (d.take x ++ d.drop (x + 1)).getD x ' ' = d.getD (x + 1) ' ' := by
  induction d with
  | nil => intro x hx; simp at hx
  | cons c t ih =>
    intro x hx
    match x with
    | 0 => simp
    | Nat.succ n =>
      simp only [List.take_succ_cons, List.drop_succ_cons, List.cons_append,
        List.getD_cons_succ]
      exact ih n (by simpa using Nat.lt_of_succ_lt_succ hx)

theorem getD_delete_lt (d : Str) :
    ∀ x y, x < y → (d.take y ++ d.drop (y + 1)).getD x ' ' = d.getD x ' ' := by
  induction d with
  | nil => intro x y _; simp
  | cons c t ih =>
    intro x y hxy
    match y, hxy with
    | Nat.succ m, hxy2 =>
      match x with
      | 0 => simp
      | Nat.succ n =>
        simp only [List.take_succ_cons, List.drop_succ_cons, List.cons_append,
          List.getD_cons_succ]
        exact ih n m (Nat.lt_of_succ_lt_succ hxy2)

theorem delete_at_ne (d : Str) (x y : Nat) (hxy : x < y) (hy : y < d.length)
    (hne : d.getD x ' ' ≠ d.getD (x + 1) ' ') :
    d.take x ++ d.drop (x + 1) ≠ d.take y ++ d.drop (y + 1) := by
  intro he
  apply hne
  have h1 := getD_delete_self d x (by omega)
  have h2 := getD_delete_lt d x y hxy
  rw [← h1, ← h2, he]

theorem omission_length_le (d : Str) : (omission d).length ≤ d.length := by
  unfold omission
  calc ((List.range d.length).map (fun i => d.take i ++ d.drop (i + 1))).dedup.length
      ≤ ((List.range d.length).map (fun i => d.take i ++ d.drop (i + 1))).length :=
        (List.dedup_sublist _).length_le
    _ = d.length := by rw [List.length_map, List.length_range]

/-- Counterexample to claim C6 as stated: the label of seed
`google.com` has six characters but `Fuzzer._omission` — a Python set
comprehension — returns only five strings, the two deletions of the
repeated `o` coinciding. -/
theorem C6_counterexample :
    (domain_tld (str "google.com")).2.1 = str "google" ∧
    (str "google" : Str).length = 6 ∧ (omission (str "google")).length = 5 := by decide

theorem delete_at_eq (d : Str) :
    ∀ i, i + 1 < d.length → d.getD i ' ' = d.getD (i + 1) ' ' →
      d.take i ++ d.drop (i + 1) = d.take (i + 1) ++ d.drop (i + 2) := by
  induction d with
  | nil =>
    intro i hi
    simp at hi
  | cons c t ih =>
    intro i hi heq
    match i with
    | 0 =>
      cases t with
      | nil => simp at hi
      | cons c2 t2 =>
        simp only [List.getD_cons_zero, List.getD_cons_succ] at heq
        simp [heq]
    | Nat.succ n =>
      simp only [List.getD_cons_succ] at heq
      simp only [List.take_succ_cons, List.drop_succ_cons, List.cons_append]
      exact congrArg (c :: ·) (ih n (by simpa using Nat.lt_of_succ_lt_succ hi) heq)

/-- Claim C6 (amended): `Fuzzer._omission` produces at most `|label|`
elements, with exactly `|label|` precisely when no two adjacent
characters of the label are equal (equal adjacent characters make two
deletions coincide, and the set comprehension already deduplicates). -/
theorem C6_theorem (d : Str) :
    (omission d).length ≤ d.length ∧
    ((omission d).length = d.length ↔
      ∀ i, i < d.length - 1 → d.getD i ' ' ≠ d.getD (i + 1) ' ') := by
  refine ⟨omission_length_le d, ?_, fun h => ?_⟩
  · intro hlen i hi heq
    have hd2 : i + 1 < d.length := by omega
    have heqdel : d.take i ++ d.drop (i + 1) = d.take (i + 1) ++ d.drop (i + 2) :=
      delete_at_eq d i hd2 heq
    unfold omission at hlen
    have hlen2 : ((List.range d.length).map (fun j => d.take j ++ d.drop (j + 1))).dedup.length
        = ((List.range d.length).map (fun j => d.take j ++ d.drop (j + 1))).length := by
      rw [hlen, List.length_map, List.length_range]
    have hnd : ((List.range d.length).map (fun j => d.take j ++ d.drop (j + 1))).Nodup := by
      rw [← (List.dedup_sublist _).eq_of_length hlen2]
      exact List.nodup_dedup _
    have hii := List.inj_on_of_nodup_map hnd
      (List.mem_range.mpr (show i < d.length by omega)) (List.mem_range.mpr hd2) heqdel
    omega
  · unfold omission
    have hinj : ∀ x ∈ List.range d.length, ∀ y ∈ List.range d.length,
        (fun i => d.take i ++ d.drop (i + 1)) x = (fun i => d.take i ++ d.drop (i + 1)) y →
          x = y := by
      intro x hx y hy hxy
      simp only [List.mem_range] at hx hy
      simp only [] at hxy
      by_contra hne
      rcases Nat.lt_or_ge x y with hlt | hge
      · exact delete_at_ne d x y hlt hy (h x (by omega)) hxy
      · have hgt : y < x := by omega
        exact delete_at_ne d y x hgt hx (h y (by omega)) hxy.symm
    have hnodup : (((List.range d.length).map (fun i => d.take i ++ d.drop (i + 1)))).Nodup :=
      List.Nodup.map_on hinj (List.nodup_range _)
    rw [List.dedup_eq_self.mpr hnodup, List.length_map, List.length_range]

/-- Witness for the amended C6: `example` has no equal adjacent
characters, so omission yields exactly seven strings; `google` has the
repeated `oo`, so by the converse direction its count cannot be six. -/
theorem C6_witness :
    (omission (str "example")).length = (str "example" : Str).length ∧
    ¬ (omission (str "google")).length = (str "google" : Str).length :=
  ⟨(C6_theorem (str "example")).2.mpr (by decide),
   fun h => (C6_theorem (str "google")).2.mp h 1 (by decide) (by decide)⟩

/-- Counterexample to claim C3 as stated: when the NS query raises
NoNameservers (SERVFAIL) — so the NS query did not succeed — the A
query is still performed (`if nxdomain is False` guards it, not NS
success), and `dns_ns` holds the sentinel. -/
theorem C3_counterexample :
    RType.A ∈ (scanDns oracleServfailNS).2 ∧
    isOkReply (oracleServfailNS RType.NS) = false ∧
    (scanDns oracleServfailNS).1.dns_ns = some servFailSentinel := by decide

/-- Claim C3 (amended): in the external-resolver DNS stage of
`Scanner.run`: NS is queried first; on NXDOMAIN nothing is recorded and
no further query runs; a SERVFAIL on any performed query records the
`['!ServFail']` sentinel in the corresponding field; A and AAAA are
performed exactly when NS did not return NXDOMAIN (even when NS failed
with SERVFAIL or another DNS error); MX is performed exactly when the
NS query succeeded. -/
theorem C3_theorem (resolve : RType → DnsReply) :
    (scanDns resolve).2.head? = some RType.NS ∧
    (resolve RType.NS = DnsReply.nxdomain →
      (scanDns resolve).1 = { dns_ns := none, dns_a := none, dns_aaaa := none, dns_mx := none } ∧
      (scanDns resolve).2 = [RType.NS]) ∧
    (resolve RType.NS = DnsReply.servfail →
      (scanDns resolve).1.dns_ns = some servFailSentinel) ∧
    (RType.A ∈ (scanDns resolve).2 → resolve RType.A = DnsReply.servfail →
      (scanDns resolve).1.dns_a = some servFailSentinel) ∧
    (RType.AAAA ∈ (scanDns resolve).2 → resolve RType.AAAA = DnsReply.servfail →
      (scanDns resolve).1.dns_aaaa = some servFailSentinel) ∧
    (RType.MX ∈ (scanDns resolve).2 → resolve RType.MX = DnsReply.servfail →
      (scanDns resolve).1.dns_mx = some servFailSentinel) ∧
    ((RType.A ∈ (scanDns resolve).2 ∧ RType.AAAA ∈ (scanDns resolve).2) ↔
      resolve RType.NS ≠ DnsReply.nxdomain) ∧
    (RType.MX ∈ (scanDns resolve).2 ↔ isOkReply (resolve RType.NS) = true) := by
  rcases hns : resolve RType.NS with xs | _ | _ | _ <;>
    refine ⟨?_, ?_, ?_, ?_, ?_, ?_, ?_, ?_⟩ <;>
      simp [scanDns, hns, isNxdomain, isOkReply] <;>
        (intro hfail <;> simp [fieldOf, hfail])

/-- Witness for the amended C3 at the all-NXDOMAIN oracle: nothing is
recorded and only NS is queried. -/
theorem C3_witness :
    (scanDns oracleNx).1 = { dns_ns := none, dns_a := none, dns_aaaa := none, dns_mx := none } ∧
    (scanDns oracleNx).2 = [RType.NS] :=
  (C3_theorem oracleNx).2.1 rfl



/-- Claim C10: `Fuzzer.permutations` never mutates the stored
permutation set: the store after any call is unchanged (every returned
entry being built from a `Permutation.copy`), a later `dns_all=True`
call — after any earlier call — returns exactly the stored untruncated
permutations, and a `dns_all=False` call returns `_cutdns`-truncated
copies of stored entries. -/
theorem C10_theorem (dec : Str → Str) (st : FuzzerState) (o o₁ : POpts) :
    (permutationsCall dec st o).2 = st ∧
    (∀ x, x ∈ (permutationsCall dec ((permutationsCall dec st o₁).2)
        { registered := false, unregistered := false, dns_all := true, unicode := false }).1
      ↔ x ∈ st.domains) ∧
    (∀ x ∈ (permutationsCall dec st
        { registered := false, unregistered := false, dns_all := false, unicode := false }).1,
      ∃ y ∈ st.domains, x = cutdns y) := by
  refine ⟨rfl, ?_, ?_⟩
  · intro x
    have h : x ∈ List.insertionSort (fun a b => permLtB b a = false) st.domains ↔
        x ∈ st.domains := List.mem_insertionSort _
    exact h
  · intro x hx
    have hx2 : x ∈ List.insertionSort (fun a b => permLtB b a = false)
        (st.domains.map cutdns) := hx
    rw [List.mem_insertionSort] at hx2
    obtain ⟨y, hy, hxy⟩ := List.mem_map.mp hx2
    exact ⟨y, hy, hxy.symm⟩

/-- Witness for C10: the stored `examplea.com` permutation with two A
records is returned truncated to its first A record, and it is the
`_cutdns` image of a stored entry. -/
theorem C10_witness :
    ∃ y ∈ annotState.domains,
      ({ fuzzer := str "addition", domain := str "examplea.com",
         extra := [(str "dns_a", CellValue.vList [str "192.0.2.1"])] } : Perm) = cutdns y :=
  (C10_theorem (fun s => s) annotState
      { registered := false, unregistered := false, dns_all := false, unicode := false }
      { registered := false, unregistered := false, dns_all := false, unicode := false }).2.2
    { fuzzer := str "addition", domain := str "examplea.com",
      extra := [(str "dns_a", CellValue.vList [str "192.0.2.1"])] } (by decide)



theorem intercalate_cons₂ (sep a b : Str) (t : List Str) :
    List.intercalate sep (a :: b :: t) = a ++ sep ++ List.intercalate sep (b :: t) := by
  simp [List.intercalate]

theorem intercalate_single (sep a : Str) : List.intercalate sep [a] = a := by
  simp [List.intercalate]

theorem not_mem_of_contains_false {s : Str} {c : Char} (h : s.contains c = false) : c ∉ s := by
  intro hm
  rw [List.contains, (List.elem_iff).mpr hm] at h
  simp at h

theorem safeStr_spec {s : Str} (h : safeStr s = true) : '\n' ∉ s ∧ '"' ∉ s := by
  unfold safeStr at h
  simp only [Bool.and_eq_true, Bool.not_eq_true'] at h
  exact ⟨not_mem_of_contains_false h.1, not_mem_of_contains_false h.2⟩

theorem splitOnChar_sepFree (sep : Char) (r : Str) (h : sep ∉ r) : splitOnChar sep r = [r] := by
  induction r with
  | nil => rfl
  | cons c t ih =>
    have hc : c ≠ sep := fun hc => h (hc ▸ List.mem_cons_self c t)
    rw [splitOnChar, if_neg hc, ih (fun hm => h (List.mem_cons_of_mem c hm))]

theorem splitOnChar_append (sep : Char) (r rest : Str) (h : sep ∉ r) :
    splitOnChar sep (r ++ sep :: rest) = r :: splitOnChar sep rest := by
  induction r with
  | nil => simp [splitOnChar]
  | cons c t ih =>
    have hc : c ≠ sep := fun hc => h (hc ▸ List.mem_cons_self c t)
    rw [List.cons_append, splitOnChar, if_neg hc, ih (fun hm => h (List.mem_cons_of_mem c hm))]

theorem splitOnChar_intercalate (sep : Char) :
    ∀ rs : List Str, rs ≠ [] → (∀ r ∈ rs, sep ∉ r) →
      splitOnChar sep (List.intercalate [sep] rs) = rs := by
  intro rs
  induction rs with
  | nil => intro h _; exact absurd rfl h
  | cons a t ih =>
    intro _ hall
    match t with
    | [] => rw [intercalate_single]; exact splitOnChar_sepFree sep a (hall a (List.mem_cons_self _ _))
    | b :: t' =>
      rw [intercalate_cons₂, List.append_assoc, List.singleton_append]
      rw [splitOnChar_append sep a _ (hall a (List.mem_cons_self _ _))]
      rw [ih (by simp) (fun r hr => hall r (List.mem_cons_of_mem a hr))]

theorem mem_intercalate_sep (sep : Char) :
    ∀ (l : List Str) (c : Char), c ∈ List.intercalate [sep] l → c = sep ∨ ∃ e ∈ l, c ∈ e := by
  intro l
  induction l with
  | nil => intro c hc; simp [List.intercalate] at hc
  | cons a t ih =>
    intro c hc
    match t with
    | [] =>
      rw [intercalate_single] at hc
      exact Or.inr ⟨a, List.mem_cons_self _ _, hc⟩
    | b :: t' =>
      rw [intercalate_cons₂, List.append_assoc, List.singleton_append] at hc
      rcases List.mem_append.mp hc with hc | hc
      · exact Or.inr ⟨a, List.mem_cons_self _ _, hc⟩
      · rcases List.mem_cons.mp hc with rfl | hc
        · exact Or.inl rfl
        · rcases ih c hc with h | ⟨e, he, hce⟩
          · exact Or.inl h
          · exact Or.inr ⟨e, List.mem_cons_of_mem a he, hce⟩

theorem parseCellsAux_scan :
    ∀ (s : Str), (∀ c ∈ s, c ≠ ',' ∧ c ≠ '"') →
      ∀ (acc rest : Str), parseCellsAux false acc (s ++ rest)
        = parseCellsAux false (s.reverse ++ acc) rest := by
  intro s
  induction s with
  | nil => intro _ acc rest; simp
  | cons c t ih =>
    intro h acc rest
    have hc := h c (List.mem_cons_self _ _)
    rw [List.cons_append, parseCellsAux, if_neg hc.1, if_neg (fun hand => hc.2 hand.1)]
    rw [ih (fun x hx => h x (List.mem_cons_of_mem c hx)) (c :: acc) rest]
    simp

theorem parseCellsAux_quoted :
    ∀ (s : Str), '"' ∉ s →
      ∀ (acc rest : Str), parseCellsAux true acc (s ++ '"' :: rest)
        = parseCellsAux false (s.reverse ++ acc) rest := by
  intro s
  induction s with
  | nil => intro _ acc rest; simp [parseCellsAux]
  | cons c t ih =>
    intro h acc rest
    have hc : c ≠ '"' := fun hc => h (hc ▸ List.mem_cons_self c t)
    rw [List.cons_append, parseCellsAux, if_neg hc]
    rw [ih (fun hm => h (List.mem_cons_of_mem c hm)) (c :: acc) rest]
    simp

theorem safeVal_vList_spec {l : List Str} (hv : safeVal (CellValue.vList l) = true) :
    l ≠ [] ∧ ∀ e ∈ l, ',' ∉ e ∧ ';' ∉ e ∧ '"' ∉ e ∧ '\n' ∉ e := by
  unfold safeVal at hv
  rw [Bool.and_eq_true] at hv
  constructor
  · intro hnil
    rw [hnil] at hv
    simp at hv
  · intro e he
    have h2 := List.all_eq_true.mp hv.2 e he
    simp only [Bool.and_eq_true, Bool.not_eq_true'] at h2
    exact ⟨not_mem_of_contains_false h2.1.1.1, not_mem_of_contains_false h2.1.1.2,
      not_mem_of_contains_false h2.1.2, not_mem_of_contains_false h2.2⟩

theorem parse_cell_step (v : CellValue) (hv : safeVal v = true) :
    (∀ rest, parseCellsAux false [] (renderCell v ++ ',' :: rest)
        = cellContent v :: parseCellsAux false [] rest) ∧
    parseCellsAux false [] (renderCell v) = [cellContent v] := by
  match v with
  | CellValue.vStr s =>
    have hs := safeStr_spec (show safeStr s = true from hv)
    by_cases hcomma : ',' ∈ s
    · have hrender : renderCell (CellValue.vStr s) = '"' :: s ++ ['"'] := by
        show (if ',' ∈ s then '"' :: s ++ ['"'] else s) = _
        rw [if_pos hcomma]
      constructor
      · intro rest
        rw [hrender, show ('"' :: s ++ ['"']) ++ ',' :: rest = '"' :: (s ++ '"' :: ',' :: rest)
          by simp]
        rw [parseCellsAux, if_neg (by decide), if_pos ⟨rfl, rfl⟩]
        rw [parseCellsAux_quoted s hs.2 [] (',' :: rest)]
        rw [parseCellsAux, if_pos rfl]
        simp [cellContent]
      · rw [hrender, show ('"' :: s ++ ['"'] : Str) = '"' :: (s ++ '"' :: []) by simp]
        rw [parseCellsAux, if_neg (by decide), if_pos ⟨rfl, rfl⟩]
        rw [parseCellsAux_quoted s hs.2 [] []]
        simp [parseCellsAux, cellContent]
    · have hrender : renderCell (CellValue.vStr s) = s := by
        show (if ',' ∈ s then '"' :: s ++ ['"'] else s) = _
        rw [if_neg hcomma]
      have hchars : ∀ c ∈ s, c ≠ ',' ∧ c ≠ '"' :=
        fun c hcm => ⟨fun hc => hcomma (hc ▸ hcm), fun hc => hs.2 (hc ▸ hcm)⟩
      constructor
      · intro rest
        rw [hrender, parseCellsAux_scan s hchars [] (',' :: rest)]
        rw [parseCellsAux, if_pos rfl]
        simp [cellContent]
      · rw [hrender, show (s : Str) = s ++ [] by simp, parseCellsAux_scan s hchars [] []]
        simp [parseCellsAux, cellContent]
  | CellValue.vList l =>
    obtain ⟨-, hel⟩ := safeVal_vList_spec hv
    have hchars : ∀ c ∈ List.intercalate [';'] l, c ≠ ',' ∧ c ≠ '"' := by
      intro c hc
      rcases mem_intercalate_sep ';' l c hc with rfl | ⟨e, he, hce⟩
      · exact ⟨by decide, by decide⟩
      · obtain ⟨h1, -, h3, -⟩ := hel e he
        exact ⟨fun hc2 => h1 (hc2 ▸ hce), fun hc2 => h3 (hc2 ▸ hce)⟩
    have hrender : renderCell (CellValue.vList l) = List.intercalate [';'] l := rfl
    constructor
    · intro rest
      rw [hrender, parseCellsAux_scan _ hchars [] (',' :: rest)]
      rw [parseCellsAux, if_pos rfl]
      simp [cellContent]
    · rw [hrender, show List.intercalate [';'] l = List.intercalate [';'] l ++ [] by simp,
        parseCellsAux_scan _ hchars [] []]
      simp [parseCellsAux, cellContent]
  | CellValue.vInt n =>
    unfold safeVal at hv
    rw [Bool.and_eq_true] at hv
    have hs := safeStr_spec hv.1
    have hcomma := not_mem_of_contains_false (by simpa using hv.2)
    have hchars : ∀ c ∈ str (toString n), c ≠ ',' ∧ c ≠ '"' :=
      fun c hcm => ⟨fun hc => hcomma (hc ▸ hcm), fun hc => hs.2 (hc ▸ hcm)⟩
    have hrender : renderCell (CellValue.vInt n) = str (toString n) := rfl
    constructor
    · intro rest
      rw [hrender, parseCellsAux_scan _ hchars [] (',' :: rest)]
      rw [parseCellsAux, if_pos rfl]
      simp [cellContent]
    · rw [hrender, show str (toString n) = str (toString n) ++ [] by simp,
        parseCellsAux_scan _ hchars [] []]
      simp [parseCellsAux, cellContent]

theorem parseRow_render :
    ∀ (vs : List CellValue), vs ≠ [] → (∀ v ∈ vs, safeVal v = true) →
      parseRow (List.intercalate [','] (vs.map renderCell)) = vs.map cellContent := by
  intro vs
  induction vs with
  | nil => intro h _; exact absurd rfl h
  | cons v t ih =>
    intro _ hall
    match t with
    | [] =>
      rw [List.map_cons, List.map_nil, intercalate_single]
      unfold parseRow
      rw [(parse_cell_step v (hall v (List.mem_cons_self _ _))).2]
      rfl
    | w :: t' =>
      rw [List.map_cons, List.map_cons, intercalate_cons₂, List.append_assoc,
        List.singleton_append]
      unfold parseRow
      rw [(parse_cell_step v (hall v (List.mem_cons_self _ _))).1, ← List.map_cons renderCell w t']
      rw [show parseCellsAux false []
          (List.intercalate [','] (List.map renderCell (w :: t')))
        = parseRow (List.intercalate [','] (List.map renderCell (w :: t'))) from rfl]
      rw [ih (by simp) (fun x hx => hall x (List.mem_cons_of_mem v hx))]
      rfl



theorem lexLt_irrefl : ∀ a : Str, lexLt a a = false
  | [] => rfl
  | c :: t => by
    rw [lexLt, if_neg (lt_irrefl c), if_neg (lt_irrefl c)]
    exact lexLt_irrefl t

theorem lexLt_trans : ∀ {a b c : Str}, lexLt a b = true → lexLt b c = true → lexLt a c = true
  | [], b, c, h1, h2 => by
    cases c with
    | nil =>
      cases b with
      | nil => exact absurd h1 (by simp [lexLt])
      | cons y bs => exact absurd h2 (by simp [lexLt])
    | cons z cs => simp [lexLt]
  | _ :: _, [], _, h1, _ => by simp [lexLt] at h1
  | _ :: _, _ :: _, [], _, h2 => by simp [lexLt] at h2
  | x :: as, y :: bs, z :: cs, h1, h2 => by
    rw [lexLt] at h1 h2 ⊢
    by_cases hxy : x < y
    · by_cases hyz : y < z
      · rw [if_pos (lt_trans hxy hyz)]
      · rw [if_neg hyz] at h2
        by_cases hzy : z < y
        · rw [if_pos hzy] at h2
          exact absurd h2 (by simp)
        · have hyz2 : y = z := le_antisymm (not_lt.mp hzy) (not_lt.mp hyz)
          rw [if_pos (hyz2 ▸ hxy)]
    · rw [if_neg hxy] at h1
      by_cases hyx : y < x
      · rw [if_pos hyx] at h1
        exact absurd h1 (by simp)
      · have hxy2 : x = y := le_antisymm (not_lt.mp hyx) (not_lt.mp hxy)
        subst hxy2
        rw [if_neg hyx] at h1
        by_cases hxz : x < z
        · rw [if_pos hxz]
        · rw [if_neg hxz] at h2 ⊢
          by_cases hzx : z < x
          · rw [if_pos hzx] at h2
            exact absurd h2 (by simp)
          · rw [if_neg hzx] at h2 ⊢
            exact lexLt_trans h1 h2

theorem lexLt_total : ∀ a b : Str, lexLt a b = true ∨ a = b ∨ lexLt b a = true
  | [], [] => Or.inr (Or.inl rfl)
  | [], _ :: _ => Or.inl (by simp [lexLt])
  | _ :: _, [] => Or.inr (Or.inr (by simp [lexLt]))
  | x :: as, y :: bs => by
    rcases lt_trichotomy x y with h | h | h
    · exact Or.inl (by rw [lexLt, if_pos h])
    · subst h
      rcases lexLt_total as bs with h2 | h2 | h2
      · exact Or.inl (by rw [lexLt, if_neg (lt_irrefl x), if_neg (lt_irrefl x)]; exact h2)
      · exact Or.inr (Or.inl (by rw [h2]))
      · exact Or.inr (Or.inr (by rw [lexLt, if_neg (lt_irrefl x), if_neg (lt_irrefl x)]; exact h2))
    · exact Or.inr (Or.inr (by rw [lexLt, if_pos h]))

theorem lexLt_asymm {a b : Str} (h : lexLt a b = true) : lexLt b a = false := by
  by_contra hba
  rw [Bool.not_eq_false] at hba
  have hh := lexLt_trans h hba
  rw [lexLt_irrefl] at hh
  exact Bool.noConfusion hh

/-- The non-strict order used for the CSV header sort is total. -/
instance lexLeTotal : IsTotal Str (fun a b => lexLt b a = false) := by
  constructor
  intro a b
  rcases lexLt_total a b with h | h | h
  · exact Or.inl (lexLt_asymm h)
  · subst h
    exact Or.inl (lexLt_irrefl a)
  · exact Or.inr (lexLt_asymm h)

/-- The non-strict order used for the CSV header sort is transitive. -/
instance lexLeTrans : IsTrans Str (fun a b => lexLt b a = false) := by
  constructor
  intro a b c h1 h2
  by_contra hca
  rw [Bool.not_eq_false] at hca
  rcases lexLt_total a b with h | h | h
  · have hh := lexLt_trans hca h
    rw [h2] at hh
    exact Bool.noConfusion hh
  · subst h
    rw [hca] at h2
    exact Bool.noConfusion h2
  · rw [h1] at h
    exact Bool.noConfusion h

theorem foldl_collect_prefix :
    ∀ (doms : List Perm) (acc : List Str),
      ∃ r, doms.foldl
          (fun acc d => acc ++ (d.extra.map Prod.fst).filter (fun k => k ∉ acc)) acc
        = acc ++ r := by
  intro doms
  induction doms with
  | nil => intro acc; exact ⟨[], by simp⟩
  | cons d ds ih =>
    intro acc
    rw [List.foldl_cons]
    obtain ⟨r, hr⟩ := ih (acc ++ (d.extra.map Prod.fst).filter (fun k => k ∉ acc))
    exact ⟨(d.extra.map Prod.fst).filter (fun k => k ∉ acc) ++ r, by
      rw [hr, List.append_assoc]⟩

theorem collectCols_eq (doms : List Perm) :
    ∃ r, collectCols doms = str "fuzzer" :: str "domain" :: r := by
  obtain ⟨r, hr⟩ := foldl_collect_prefix doms [str "fuzzer", str "domain"]
  exact ⟨r, by rw [collectCols, hr]; rfl⟩

theorem mem_foldl_collect :
    ∀ (doms : List Perm) (acc : List Str) (k : Str),
      (k ∈ acc ∨ ∃ p ∈ doms, k ∈ p.extra.map Prod.fst) →
      k ∈ doms.foldl
        (fun acc d => acc ++ (d.extra.map Prod.fst).filter (fun k => k ∉ acc)) acc := by
  intro doms
  induction doms with
  | nil =>
    intro acc k h
    rcases h with h | ⟨p, hp, _⟩
    · exact h
    · simp at hp
  | cons d ds ih =>
    intro acc k h
    rw [List.foldl_cons]
    apply ih
    rcases h with h | ⟨p, hp, hk⟩
    · exact Or.inl (List.mem_append_left _ h)
    · rcases List.mem_cons.mp hp with rfl | hp2
      · by_cases hacc : k ∈ acc
        · exact Or.inl (List.mem_append_left _ hacc)
        · exact Or.inl (List.mem_append_right _
            (List.mem_filter.mpr ⟨hk, by simpa using hacc⟩))
      · exact Or.inr ⟨p, hp2, hk⟩

theorem mem_collect_inv :
    ∀ (doms : List Perm) (acc : List Str) (k : Str),
      k ∈ doms.foldl
          (fun acc d => acc ++ (d.extra.map Prod.fst).filter (fun k => k ∉ acc)) acc →
      k ∈ acc ∨ ∃ p ∈ doms, k ∈ p.extra.map Prod.fst := by
  intro doms
  induction doms with
  | nil =>
    intro acc k h
    exact Or.inl h
  | cons d ds ih =>
    intro acc k h
    rw [List.foldl_cons] at h
    rcases ih _ k h with h2 | ⟨p, hp, hk⟩
    · rcases List.mem_append.mp h2 with h3 | h3
      · exact Or.inl h3
      · exact Or.inr ⟨d, List.mem_cons_self d ds, (List.mem_filter.mp h3).1⟩
    · exact Or.inr ⟨p, List.mem_cons_of_mem d hp, hk⟩

theorem mem_csvCols_iff (doms : List Perm) (k : Str) :
    k ∈ csvCols doms ↔ k ∈ collectCols doms := by
  unfold csvCols
  rw [List.mem_append, List.mem_insertionSort]
  conv_rhs => rw [← List.take_append_drop 2 (collectCols doms)]
  rw [List.mem_append]

theorem mem_csvCols_of_key {doms : List Perm} {p : Perm} {k : Str} {v : CellValue}
    (hp : p ∈ doms) (hkv : (k, v) ∈ p.extra) : k ∈ csvCols doms := by
  rw [mem_csvCols_iff]
  exact mem_foldl_collect doms _ k
    (Or.inr ⟨p, hp, List.mem_map.mpr ⟨(k, v), hkv, rfl⟩⟩)

theorem lookup_of_mem_nodup :
    ∀ (l : List (Str × CellValue)), (l.map Prod.fst).Nodup →
      ∀ k v, (k, v) ∈ l → l.lookup k = some v := by
  intro l
  induction l with
  | nil =>
    intro _ k v h
    simp at h
  | cons kv t ih =>
    intro hnd k v h
    obtain ⟨k1, v1⟩ := kv
    rw [List.map_cons] at hnd
    rcases List.mem_cons.mp h with h1 | h2
    · cases h1
      simp [List.lookup]
    · have hk : (k == k1) = false := by
        rw [beq_eq_false_iff_ne]
        intro he
        have hm : k ∈ t.map Prod.fst := List.mem_map.mpr ⟨(k, v), h2, rfl⟩
        exact (List.nodup_cons.mp hnd).1 (he ▸ hm)
      rw [List.lookup, hk]
      exact ih (List.nodup_cons.mp hnd).2 k v h2

theorem mem_of_lookup_eq_some :
    ∀ (l : List (Str × CellValue)) (k : Str) (v : CellValue),
      l.lookup k = some v → ∃ kv ∈ l, kv.2 = v := by
  intro l
  induction l with
  | nil =>
    intro k v h
    simp [List.lookup] at h
  | cons kv t ih =>
    intro k v h
    obtain ⟨k1, v1⟩ := kv
    rw [List.lookup] at h
    by_cases hk : (k == k1) = true
    · rw [hk] at h
      exact ⟨(k1, v1), List.mem_cons_self _ _, (Option.some.injEq _ _ ▸ h).symm ▸ rfl⟩
    · rw [Bool.not_eq_true] at hk
      rw [hk] at h
      obtain ⟨kv2, hm, hv2⟩ := ih k v h
      exact ⟨kv2, List.mem_cons_of_mem _ hm, hv2⟩

theorem getCol_safe {doms : List Perm} {d : Perm} (hd : d ∈ doms)
    (Hv : ∀ p ∈ doms, safeStr p.fuzzer = true ∧ safeStr p.domain = true ∧
      ∀ kv ∈ p.extra, safeVal kv.2 = true) (c : Str) :
    safeVal (getCol d c) = true := by
  obtain ⟨h1, h2, h3⟩ := Hv d hd
  unfold getCol
  by_cases hc1 : c = str "fuzzer"
  · rw [if_pos hc1]
    exact h1
  · rw [if_neg hc1]
    by_cases hc2 : c = str "domain"
    · rw [if_pos hc2]
      exact h2
    · rw [if_neg hc2]
      rcases hlk : d.extra.lookup c with _ | v
      · decide
      · obtain ⟨kv, hm, hv⟩ := mem_of_lookup_eq_some d.extra c v hlk
        rw [Option.getD_some, ← hv]
        exact h3 kv hm

theorem renderCell_no_newline {v : CellValue} (hv : safeVal v = true) :
    '\n' ∉ renderCell v := by
  match v with
  | CellValue.vStr s =>
    have hs := safeStr_spec hv
    show '\n' ∉ (if ',' ∈ s then '"' :: s ++ ['"'] else s)
    by_cases hq : ',' ∈ s
    · rw [if_pos hq]
      intro hm
      simp only [List.cons_append, List.mem_cons, List.mem_append, List.mem_singleton] at hm
      rcases hm with h | h | h
      · exact absurd h (by decide)
      · exact hs.1 h
      · exact absurd h (by decide)
    · rw [if_neg hq]
      exact hs.1
  | CellValue.vList l =>
    obtain ⟨_, hel⟩ := safeVal_vList_spec hv
    intro hm
    rcases mem_intercalate_sep ';' l '\n' hm with h | ⟨e, he, hce⟩
    · exact absurd h (by decide)
    · exact (hel e he).2.2.2 hce
  | CellValue.vInt n =>
    rw [safeVal, Bool.and_eq_true] at hv
    exact (safeStr_spec hv.1).1

theorem row_no_newline {vs : List CellValue} (hvs : ∀ v ∈ vs, safeVal v = true) :
    '\n' ∉ List.intercalate [','] (vs.map renderCell) := by
  intro hm
  rcases mem_intercalate_sep ',' _ '\n' hm with h | ⟨e, he, hce⟩
  · exact absurd h (by decide)
  · obtain ⟨v, hv, rfl⟩ := List.mem_map.mp he
    exact renderCell_no_newline (hvs v hv) hce

theorem cols_no_newline {doms : List Perm}
    (Hk2 : ∀ p ∈ doms, ∀ k ∈ p.extra.map Prod.fst,
      k ≠ str "fuzzer" ∧ k ≠ str "domain" ∧ '\n' ∉ k) :
    ∀ c ∈ csvCols doms, '\n' ∉ c := by
  intro c hc
  rw [mem_csvCols_iff] at hc
  rcases mem_collect_inv doms _ c hc with h | ⟨p, hp, hk⟩
  · rcases List.mem_cons.mp h with rfl | h2
    · decide
    · rw [List.mem_singleton] at h2
      subst h2
      decide
  · exact (Hk2 p hp c hk).2.2

theorem header_no_newline {doms : List Perm}
    (Hk2 : ∀ p ∈ doms, ∀ k ∈ p.extra.map Prod.fst,
      k ≠ str "fuzzer" ∧ k ≠ str "domain" ∧ '\n' ∉ k) :
    '\n' ∉ List.intercalate [','] (csvCols doms) := by
  intro hm
  rcases mem_intercalate_sep ',' _ '\n' hm with h | ⟨e, he, hce⟩
  · exact absurd h (by decide)
  · exact cols_no_newline Hk2 e he hce



theorem formatCsv_eq (doms : List Perm) :
    formatCsv doms = List.intercalate ['\n']
      (List.intercalate [','] (csvCols doms) ::
       doms.map (fun d =>
         List.intercalate [','] ((csvCols doms).map (fun c => renderCell (getCol d c))))) := rfl

theorem csvCols_ne_nil (doms : List Perm) : csvCols doms ≠ [] := by
  obtain ⟨r, hr⟩ := collectCols_eq doms
  intro h
  have hm : str "fuzzer" ∈ csvCols doms :=
    (mem_csvCols_iff _ _).mpr (by rw [hr]; exact List.mem_cons_self _ _)
  rw [h] at hm
  simp at hm

theorem str_getD_indexOf :
    ∀ (l : List Str) (k : Str), k ∈ l → l.getD (l.indexOf k) [] = k := by
  intro l
  induction l with
  | nil =>
    intro k h
    simp at h
  | cons a t ih =>
    intro k h
    by_cases hk : (a == k) = true
    · have hidx : (a :: t).indexOf k = 0 := by
        simp only [List.indexOf, List.findIdx_cons, hk, cond_true]
      rw [hidx]
      exact eq_of_beq hk
    · rw [Bool.not_eq_true] at hk
      have hmem : k ∈ t := by
        rcases List.mem_cons.mp h with h1 | h1
        · rw [h1, beq_self_eq_true] at hk
          exact Bool.noConfusion hk
        · exact h1
      have hidx : (a :: t).indexOf k = t.indexOf k + 1 := by
        simp only [List.indexOf, List.findIdx_cons, hk, cond_false]
      rw [hidx, List.getD_cons_succ]
      exact ih k hmem

theorem parseCSV_formatCsv (doms : List Perm)
    (Hk2 : ∀ p ∈ doms, ∀ k ∈ p.extra.map Prod.fst,
      k ≠ str "fuzzer" ∧ k ≠ str "domain" ∧ '\n' ∉ k)
    (Hv : ∀ p ∈ doms, safeStr p.fuzzer = true ∧ safeStr p.domain = true ∧
      ∀ kv ∈ p.extra, safeVal kv.2 = true) :
    parseCSV (formatCsv doms) =
      parseRow (List.intercalate [','] (csvCols doms)) ::
        doms.map (fun d => (csvCols doms).map (fun c => cellContent (getCol d c))) := by
  have hvs : ∀ d ∈ doms, ∀ v ∈ (csvCols doms).map (fun c => getCol d c),
      safeVal v = true := by
    intro d hd v hv
    obtain ⟨c, _, rfl⟩ := List.mem_map.mp hv
    exact getCol_safe hd Hv c
  have hlines : ∀ r ∈ List.intercalate [','] (csvCols doms) ::
      doms.map (fun d =>
        List.intercalate [','] ((csvCols doms).map (fun c => renderCell (getCol d c)))),
      '\n' ∉ r := by
    intro r hr
    rcases List.mem_cons.mp hr with hr1 | hr2
    · rw [hr1]
      exact header_no_newline Hk2
    · obtain ⟨d, hd, rfl⟩ := List.mem_map.mp hr2
      have hh := @row_no_newline ((csvCols doms).map (fun c => getCol d c)) (hvs d hd)
      rw [List.map_map] at hh
      exact hh
  rw [parseCSV, formatCsv_eq, splitOnChar_intercalate '\n' _ (by simp) hlines, List.map_cons]
  congr 1
  rw [List.map_map]
  apply List.map_congr_left
  intro d hd
  have hne : (csvCols doms).map (fun c => getCol d c) ≠ [] := by
    intro h
    rw [List.map_eq_nil] at h
    exact csvCols_ne_nil doms h
  have hp := parseRow_render ((csvCols doms).map (fun c => getCol d c)) hne (hvs d hd)
  rw [List.map_map, List.map_map] at hp
  exact hp

/-- C7 counterexample: a permutation whose `banner_http` annotation holds a
newline.  `Format.csv` writes the newline bare, the row breaks in two, and
the parsed cell is `"a"`, not the original `"a\nb"`: parsing the CSV back
does not recover every string-valued annotation exactly. -/
theorem C7_counterexample :
    (str "banner_http", CellValue.vStr (str "a\nb")) ∈
      (csvDoms0.getD 0 { fuzzer := [], domain := [] }).extra ∧
    cellAt (parseCSV (formatCsv csvDoms0)) 1
      ((csvCols csvDoms0).indexOf (str "banner_http")) ≠ str "a\nb" := by
  decide

/-- C7 (amended): for annotation keys that are distinct from `fuzzer` and
`domain` and newline-free, with each row's keys distinct, and values that
are CSV-safe (strings free of newline and double quote; non-empty lists of
elements free of `,`, `;`, `"` and newline; ints), the CSV header starts
with `fuzzer, domain` followed by the remaining columns sorted, and parsing
the CSV back recovers every string-valued annotation exactly and every
list-valued one by splitting its cell on `;`. -/
theorem C7_theorem (doms : List Perm)
    (Hk : ∀ p ∈ doms, (p.extra.map Prod.fst).Nodup)
    (Hk2 : ∀ p ∈ doms, ∀ k ∈ p.extra.map Prod.fst,
      k ≠ str "fuzzer" ∧ k ≠ str "domain" ∧ '\n' ∉ k)
    (Hv : ∀ p ∈ doms, safeStr p.fuzzer = true ∧ safeStr p.domain = true ∧
      ∀ kv ∈ p.extra, safeVal kv.2 = true) :
    ((csvCols doms).take 2 = [str "fuzzer", str "domain"] ∧
      List.Sorted (fun a b => lexLt b a = false) ((csvCols doms).drop 2)) ∧
    ∀ i, i < doms.length → ∀ k v,
      (k, v) ∈ (doms.getD i { fuzzer := [], domain := [] }).extra →
      (∀ s, v = CellValue.vStr s →
        cellAt (parseCSV (formatCsv doms)) (i + 1) ((csvCols doms).indexOf k) = s) ∧
      (∀ l, v = CellValue.vList l →
        splitOnChar ';'
          (cellAt (parseCSV (formatCsv doms)) (i + 1) ((csvCols doms).indexOf k)) = l) := by
  obtain ⟨r, hr⟩ := collectCols_eq doms
  constructor
  · constructor
    · simp only [csvCols]
      rw [hr]
      rfl
    · have hd2 : (csvCols doms).drop 2 =
          List.insertionSort (fun a b => lexLt b a = false) r := by
        simp only [csvCols]
        rw [hr]
        rfl
      rw [hd2]
      exact List.sorted_insertionSort _ _
  · intro i hi k v hkv
    have hdmem : doms.getD i { fuzzer := [], domain := [] } ∈ doms := by
      rw [List.getD_eq_getElem doms _ hi]
      exact List.getElem_mem hi
    obtain ⟨hk1, hk2, _⟩ := Hk2 _ hdmem k (List.mem_map.mpr ⟨(k, v), hkv, rfl⟩)
    have hkcol : k ∈ csvCols doms := mem_csvCols_of_key hdmem hkv
    have hj : (csvCols doms).indexOf k < (csvCols doms).length :=
      List.findIdx_lt_length_of_exists ⟨k, hkcol, beq_self_eq_true k⟩
    have htab := parseCSV_formatCsv doms Hk2 Hv
    have hrow : (parseCSV (formatCsv doms)).getD (i + 1) [] =
        (csvCols doms).map
          (fun c => cellContent (getCol (doms.getD i { fuzzer := [], domain := [] }) c)) := by
      rw [htab, List.getD_cons_succ,
        List.getD_eq_getElem _ _ (by rw [List.length_map]; exact hi),
        List.getElem_map, ← List.getD_eq_getElem doms _ hi]
    have hcell : cellAt (parseCSV (formatCsv doms)) (i + 1) ((csvCols doms).indexOf k) =
        cellContent (getCol (doms.getD i { fuzzer := [], domain := [] }) k) := by
      rw [cellAt, hrow, List.getD_eq_getElem _ _ (by rw [List.length_map]; exact hj),
        List.getElem_map, ← List.getD_eq_getElem (csvCols doms) [] hj,
        str_getD_indexOf (csvCols doms) k hkcol]
    have hget : getCol (doms.getD i { fuzzer := [], domain := [] }) k = v := by
      rw [getCol, if_neg hk1, if_neg hk2, lookup_of_mem_nodup _ (Hk _ hdmem) k v hkv]
      rfl
    refine ⟨fun s hs => ?_, fun l hl => ?_⟩
    · rw [hcell, hget, hs]
      rfl
    · rw [hcell, hget, hl]
      have hv2 : safeVal (CellValue.vList l) = true := by
        have hvv := (Hv _ hdmem).2.2 (k, v) hkv
        rw [hl] at hvv
        exact hvv
      obtain ⟨hne, hel⟩ := safeVal_vList_spec hv2
      show splitOnChar ';' (List.intercalate [';'] l) = l
      exact splitOnChar_intercalate ';' l hne (fun e he => (hel e he).2.1)

/-- C7 witness: on a permutation annotated with `dns_a = [192.0.2.1,
192.0.2.2]` and `banner_http = "nginx/1.2, unix"`, the amended theorem
recovers the comma-bearing banner exactly (via quoting) and the address
list by splitting on `;`. -/
theorem C7_witness :
    cellAt (parseCSV (formatCsv csvDoms1)) 1
      ((csvCols csvDoms1).indexOf (str "banner_http")) = str "nginx/1.2, unix" ∧
    splitOnChar ';' (cellAt (parseCSV (formatCsv csvDoms1)) 1
      ((csvCols csvDoms1).indexOf (str "dns_a"))) = [str "192.0.2.1", str "192.0.2.2"] := by
  have H := C7_theorem csvDoms1 (by decide) (by decide) (by decide)
  constructor
  · exact (H.2 0 (by decide) (str "banner_http")
      (CellValue.vStr (str "nginx/1.2, unix")) (by decide)).1 _ rfl
  · exact (H.2 0 (by decide) (str "dns_a")
      (CellValue.vList [str "192.0.2.1", str "192.0.2.2"]) (by decide)).2 _ rfl


end Dnstwist
